import Mathlib

/-!
Shallow embedding of the SA-IS suffix array construction library
(src/suffix_array/src/sa_is.rs, suffix_array.rs, naive.rs).

Texts are modelled as `List Nat` (bytes at the top level, u32 names in
recursive calls).  The mutable `sa` buffer (a Rust `&mut [u32]`) is modelled
as a total map `Nat → Nat` updated functionally; `bucket_heads`,
`bucket_tails` and `char_count` vectors are likewise modelled as maps.
Rust `assert!`s and the fallible loops are modelled with `Option`; `while`
loops whose iteration count is not structurally bounded use explicit fuel
that dominates the loop bound of every in-bounds execution.
-/

/-- LSType from sa_is.rs: classification of each suffix position. -/
inductive LSType where
  | LType
  | SType
  | NAType
deriving DecidableEq, Repr

open LSType

/-- TextSize positions / characters; `char_at` on a `List Nat` text. -/
def charAt (t : List Nat) (i : Nat) : Nat := t.getD i 0

/-- Read an entry of an `ls_type` array, defaulting to NAType out of range. -/
def lsGet (ls : List LSType) (i : Nat) : LSType := ls.getD i NAType

/-- The right-to-left L/S classification scan of `build_suffix_data`
(positions 0..n-1): SType iff the character is smaller than the next one, or
equal to it and the next position is SType; the last position is LType. -/
def lsTypes : List Nat → List LSType
  | [] => []
  | [_] => [LType]
  | c :: c2 :: rest =>
    let tl := lsTypes (c2 :: rest)
    (if c < c2 then SType else if c2 < c then LType else tl.headD LType) :: tl

/-- ls_type array of length n+1: types of positions 0..n-1 plus the
sentinel SType at index n (`ls_type_buffer[(len + 1)] = SType`). -/
def lsArr (t : List Nat) : List LSType := lsTypes t ++ [SType]

/-- Bucket from sa_is.rs (`end` is renamed `stop`). -/
structure Bucket where
  start : Nat
  stop : Nat
deriving DecidableEq, Repr

/-- char_count from build_suffix_data. -/
def countCh (t : List Nat) (c : Nat) : Nat := t.count c

/-- Prefix sums of char_count: start offset of bucket `c`. -/
def sumBelow (t : List Nat) (c : Nat) : Nat := ((List.range c).map (countCh t)).sum

/-- The bucket of character `c` as laid out by the prefix-sum loop of
`build_suffix_data`. -/
def bucketFor (t : List Nat) (c : Nat) : Bucket :=
  ⟨sumBelow t c, sumBelow t c + countCh t c⟩

/-- SuffixData from sa_is.rs.  `ls` is `ls_type()` (indices 0..n); the
`prev_ls_type` view is recovered by `prevType`. -/
structure SuffixData where
  ls : List LSType
  buckets : Nat → Bucket
  bucket_indexes : List Nat

/-- prev_ls_type[pos]: NAType at 0 (the padding slot of `ls_type_buffer`),
otherwise the type of position pos-1. -/
def prevType (sd : SuffixData) (pos : Nat) : LSType :=
  if pos = 0 then NAType else lsGet sd.ls (pos - 1)

/-- build_suffix_data: L/S classification, buckets and the list of
non-empty bucket indices. -/
def buildSuffixData (t : List Nat) (sigma : Nat) : SuffixData :=
  { ls := lsArr t
    buckets := fun c => bucketFor t c
    bucket_indexes := (List.range sigma).filter (fun c => decide (0 < countCh t c)) }

/-- The `assert!(total_count == self.text.len())` of build_suffix_data. -/
def guardSum (t : List Nat) (sigma : Nat) : Bool :=
  decide (((List.range sigma).map (countCh t)).sum = t.length)

/-- Spec notion of an LMS position: p > 0, Type(p) = S and Type(p-1) = L. -/
def isLms (ls : List LSType) (p : Nat) : Bool :=
  decide (0 < p) && decide (lsGet ls p = SType) && decide (lsGet ls (p - 1) = LType)

/-- First while loop of `LmsIterator::next`: advance while the type is SType. -/
def scanS (ls : List LSType) : Nat → Nat → Nat
  | 0, pos => pos
  | fuel+1, pos => if lsGet ls pos = SType then scanS ls fuel (pos + 1) else pos

/-- Second while loop of `LmsIterator::next`: advance while the type is LType. -/
def scanL (ls : List LSType) : Nat → Nat → Nat
  | 0, pos => pos
  | fuel+1, pos => if lsGet ls pos = LType then scanL ls fuel (pos + 1) else pos

/-- One `next` step of LmsIterator from position `pos`. -/
def lmsNext (ls : List LSType) (pos : Nat) : Nat :=
  scanL ls ls.length (scanS ls ls.length pos + 1)

/-- The full sequence produced by LmsIterator (excluding the pseudo-terminal,
which the iterator refuses to emit: `pos < ls_type.len() - 1`). -/
def lmsAux (ls : List LSType) : Nat → Nat → List Nat
  | 0, _ => []
  | fuel+1, pos =>
    if lmsNext ls pos < ls.length - 1 then lmsNext ls pos :: lmsAux ls fuel (lmsNext ls pos)
    else []

/-- All LMS positions in text order, as enumerated by LmsIterator. -/
def lmsList (ls : List LSType) : List Nat := lmsAux ls ls.length 0

/-- Functional update of a map modelling a mutable buffer slot. -/
def upd (f : Nat → Nat) (i v : Nat) : Nat → Nat := fun j => if j = i then v else f j

/-- The mutable state of `induced_sort`: the sa buffer and the per-bucket
head/tail fill counters. -/
structure ISState where
  sa : Nat → Nat
  heads : Nat → Nat
  tails : Nat → Nat

/-- RecursiveBuilder::assign_ltype. -/
def assign_ltype (t : List Nat) (bk : Nat → Bucket) (pos : Nat) (st : ISState) : ISState :=
  { st with
    heads := upd st.heads (charAt t pos) (st.heads (charAt t pos) + 1)
    sa := upd st.sa ((bk (charAt t pos)).start + st.heads (charAt t pos)) pos }

/-- RecursiveBuilder::assign_stype. -/
def assign_stype (t : List Nat) (bk : Nat → Bucket) (pos : Nat) (st : ISState) : ISState :=
  { st with
    tails := upd st.tails (charAt t pos) (st.tails (charAt t pos) + 1)
    sa := upd st.sa ((bk (charAt t pos)).stop - (st.tails (charAt t pos) + 1)) pos }

/-- InduceSortLmsStrings. -/
inductive SeedMode where
  | iter
  | sorted (num_lms : Nat)

/-- The seeding step of induced_sort: place the LMS positions at the tails of
their buckets, either from the LmsIterator in text order, or from
sa[0..num_lms) iterated in reverse. -/
def seedStage (t : List Nat) (sd : SuffixData) (mode : SeedMode) (st : ISState) : ISState :=
  match mode with
  | SeedMode.iter =>
    (lmsList sd.ls).foldl (fun st pos => assign_stype t sd.buckets pos st) st
  | SeedMode.sorted m =>
    ((List.range m).reverse).foldl (fun st i => assign_stype t sd.buckets (st.sa i) st) st

/-- The head-region while loop of the L-induction pass for one bucket:
`while i < bucket_heads[b]`, re-reading the (growing) counter each time. -/
def lHeadScan (t : List Nat) (sd : SuffixData) (b : Nat) : Nat → Nat → ISState → ISState
  | 0, _, st => st
  | fuel+1, i, st =>
    if i < st.heads b then
      lHeadScan t sd b fuel (i + 1)
        (if prevType sd (st.sa ((sd.buckets b).start + i)) = LType then
          assign_ltype t sd.buckets (st.sa ((sd.buckets b).start + i) - 1) st
        else st)
    else st

/-- The tail-region for loop of the L-induction pass for one bucket:
for each LMS entry at the tail, unconditionally induce the preceding LType. -/
def lTailLoop (t : List Nat) (sd : SuffixData) (b : Nat) (st : ISState) : ISState :=
  (List.range (st.tails b)).foldl (fun st2 k =>
    assign_ltype t sd.buckets (st2.sa ((sd.buckets b).stop - st.tails b + k) - 1) st2) st

/-- L-induction: traverse non-empty buckets in ascending order. -/
def lPass (t : List Nat) (sd : SuffixData) (st : ISState) : ISState :=
  sd.bucket_indexes.foldl
    (fun st b => lTailLoop t sd b (lHeadScan t sd b (t.length + 1) 0 st)) st

/-- The tail-region while loop of the S-induction pass for one bucket:
`while i < bucket_tails[b]`, scanning the tail from right to left. -/
def sTailScan (t : List Nat) (sd : SuffixData) (b : Nat) : Nat → Nat → ISState → ISState
  | 0, _, st => st
  | fuel+1, i, st =>
    if i < st.tails b then
      sTailScan t sd b fuel (i + 1)
        (if prevType sd (st.sa ((sd.buckets b).stop - 1 - i)) = SType then
          assign_stype t sd.buckets (st.sa ((sd.buckets b).stop - 1 - i) - 1) st
        else st)
    else st

/-- The head-region for loop of the S-induction pass for one bucket,
iterated in reverse. -/
def sHeadLoop (t : List Nat) (sd : SuffixData) (b : Nat) (st : ISState) : ISState :=
  ((List.range (st.heads b)).reverse).foldl (fun st2 k =>
    if prevType sd (st2.sa ((sd.buckets b).start + k)) = SType then
      assign_stype t sd.buckets (st2.sa ((sd.buckets b).start + k) - 1) st2
    else st2) st

/-- S-induction: traverse non-empty buckets in descending order. -/
def sPass (t : List Nat) (sd : SuffixData) (st : ISState) : ISState :=
  (sd.bucket_indexes.reverse).foldl
    (fun st b => sHeadLoop t sd b (sTailScan t sd b (t.length + 1) 0 st)) st

/-- RecursiveBuilder::induced_sort: seed, place the last character, run the
L pass, reset the tail counters, run the S pass; return the final sa
together with the (post-S-pass) bucket_tails vector. -/
def induced_sort (t : List Nat) (sd : SuffixData) (sa0 : Nat → Nat) (mode : SeedMode) :
    (Nat → Nat) × (Nat → Nat) :=
  let st0 : ISState := ⟨sa0, fun _ => 0, fun _ => 0⟩
  let st1 := seedStage t sd mode st0
  let st2 := assign_ltype t sd.buckets (t.length - 1) st1
  let st3 := lPass t sd st2
  let st4 : ISState := ⟨st3.sa, st3.heads, fun _ => 0⟩
  let st5 := sPass t sd st4
  (st5.sa, st5.tails)

/-- Outcome of a loop of Text::lms_strings_equal: an index out of bounds
(a Rust panic, also used for exhausted fuel, which no in-bounds run
reaches), an early `return false`, or the break position pair. -/
inductive LoopRes where
  | panic
  | retFalse
  | brk (a b : Nat)
deriving DecidableEq, Repr

/-- First loop of Text::lms_strings_equal: advance in lock-step while the
characters match and the type of `a` is not LType.  Every `char_at` read is
guarded by the text length and every `ls_type` read by the slice length,
exactly where the Rust indexing would panic. -/
def lmsEqFirstLoop (t : List Nat) (ls : List LSType) : Nat → Nat → Nat → LoopRes
  | 0, _, _ => LoopRes.panic
  | fuel+1, a, b =>
    if a < t.length ∧ b < t.length then
      if charAt t a ≠ charAt t b then LoopRes.retFalse
      else if a < ls.length then
        (if lsGet ls a = LType then LoopRes.brk a b
         else lmsEqFirstLoop t ls fuel (a + 1) (b + 1))
      else LoopRes.panic
    else LoopRes.panic

/-- Second loop of Text::lms_strings_equal: step first, break when the type
of `a` becomes SType, otherwise require matching characters; reads are
bound-guarded as in the first loop. -/
def lmsEqSecondLoop (t : List Nat) (ls : List LSType) : Nat → Nat → Nat → LoopRes
  | 0, _, _ => LoopRes.panic
  | fuel+1, a, b =>
    if a + 1 < ls.length then
      (if lsGet ls (a + 1) = SType then LoopRes.brk (a + 1) (b + 1)
       else if a + 1 < t.length ∧ b + 1 < t.length then
         (if charAt t (a + 1) ≠ charAt t (b + 1) then LoopRes.retFalse
          else lmsEqSecondLoop t ls fuel (a + 1) (b + 1))
       else LoopRes.panic)
    else LoopRes.panic

/-- Fold over a loop outcome: a panic propagates as `none`, `retFalse`
yields `some false`, a break continues with `f`. -/
def loopFold (f : Nat → Nat → Option Bool) : LoopRes → Option Bool
  | LoopRes.panic => none
  | LoopRes.retFalse => some false
  | LoopRes.brk a b => f a b

/-- The tail of Text::lms_strings_equal after the second loop: require the
simultaneous transition to SType, reject the pseudo-terminal, and compare
the terminal S characters (whose reads panic out of bounds). -/
def lmsEqTail2 (t : List Nat) (ls : List LSType) (a2 b2 : Nat) : Option Bool :=
  if b2 < ls.length then
    (if lsGet ls b2 ≠ SType then some false
     else if a2 = t.length ∨ b2 = t.length then some false
     else if a2 < t.length ∧ b2 < t.length then
       some (decide (charAt t a2 = charAt t b2))
     else none)
  else none

/-- The part of Text::lms_strings_equal after the first loop: require the
simultaneous transition to LType, then run the second loop. -/
def lmsEqTail1 (t : List Nat) (ls : List LSType) (a1 b1 : Nat) : Option Bool :=
  if b1 < ls.length then
    (if lsGet ls b1 ≠ LType then some false
     else loopFold (lmsEqTail2 t ls) (lmsEqSecondLoop t ls (t.length + 2) a1 b1))
  else none

/-- Text::lms_strings_equal; `none` models a Rust index panic, `some r` a
normal return of `r`. -/
def lms_strings_equal (t : List Nat) (ls : List LSType) (a b : Nat) : Option Bool :=
  loopFold (lmsEqTail1 t ls) (lmsEqFirstLoop t ls (t.length + 2) a b)

/-- ReducedText from sa_is.rs. -/
inductive ReducedText where
  | Sorted (num_lms : Nat)
  | Reduced (reduced_text : List Nat) (alphabet_size : Nat)
deriving DecidableEq, Repr

/-- The NULL_NAME sentinel (`u32::MAX`). -/
def NULL_NAME : Nat := 2 ^ 32 - 1

/-- First phase of reduce: move every LMS position found at a bucket tail to
the front of sa, returning the new sa and num_lms. -/
def reduceExtract (sd : SuffixData) (sa : Nat → Nat) (tails : Nat → Nat) :
    (Nat → Nat) × Nat :=
  sd.bucket_indexes.foldl (fun (p : (Nat → Nat) × Nat) b =>
    (List.range (tails b)).foldl (fun (p2 : (Nat → Nat) × Nat) k =>
      if prevType sd (p2.1 ((sd.buckets b).stop - tails b + k)) = LType then
        (upd p2.1 p2.2 (p2.1 ((sd.buckets b).stop - tails b + k)), p2.2 + 1)
      else p2) p)
    (sa, 0)

/-- Clear the naming area sa[num_lms .. num_lms + len/2) to NULL_NAME. -/
def reduceClear (num_lms half : Nat) (sa : Nat → Nat) : Nat → Nat :=
  (List.range half).foldl (fun sa k => upd sa (num_lms + k) NULL_NAME) sa

/-- One iteration of the naming loop of reduce; the state is
(sa, last_lms_pos, name_counter); a panic inside lms_strings_equal aborts
the whole loop. -/
def reduceNameLoop (t : List Nat) (ls : List LSType) (num_lms : Nat)
    (st : Option ((Nat → Nat) × Nat × Nat)) (i : Nat) :
    Option ((Nat → Nat) × Nat × Nat) :=
  match st with
  | none => none
  | some s =>
    match lms_strings_equal t ls s.2.1 (s.1 i) with
    | none => none
    | some true => some (upd s.1 (num_lms + s.1 i / 2) s.2.2, s.2.1, s.2.2)
    | some false => some (upd s.1 (num_lms + s.1 i / 2) (s.2.2 + 1), s.1 i, s.2.2 + 1)

/-- Final compaction loop of reduce: collect the num_lms non-NULL names into
the reduced text, recording the recovery table at sa[num_lms..2*num_lms).
`none` models running off the end of the sa buffer (a Rust index panic). -/
def reduceCompact (num_lms : Nat) : Nat → Nat → Nat → List Nat → (Nat → Nat) →
    Option (List Nat × (Nat → Nat))
  | 0, _, _, _, _ => none
  | fuel+1, i, j, acc, sa =>
    let name := sa i
    if name ≠ NULL_NAME then
      let acc2 := acc ++ [name]
      let sa2 := upd sa (j + num_lms) (i - num_lms)
      if j + 1 = num_lms then some (acc2, sa2)
      else reduceCompact num_lms fuel (i + 1) (j + 1) acc2 sa2
    else reduceCompact num_lms fuel (i + 1) j acc sa

/-- RecursiveBuilder::reduce.  `saLen` is the length of the sa buffer; the
two `assert!`s and the compaction loop's buffer bound are modelled by
`Option`. -/
def reduce (t : List Nat) (sd : SuffixData) (saLen : Nat) (sa : Nat → Nat)
    (tails : Nat → Nat) : Option (ReducedText × (Nat → Nat)) :=
  let ext := reduceExtract sd sa tails
  let sa1 := ext.1
  let num_lms := ext.2
  let len := t.length
  if ¬ (num_lms ≤ len / 2) then none
  else if num_lms < 2 then some (ReducedText.Sorted num_lms, sa1)
  else
    let sa2 := reduceClear num_lms (len / 2) sa1
    let last0 := sa2 0
    let sa3 := upd sa2 (num_lms + last0 / 2) 0
    ((List.range' 1 (num_lms - 1)).foldl (reduceNameLoop t sd.ls num_lms)
        (some (sa3, last0, 0))).bind (fun st =>
      if ¬ (st.2.2 + 1 ≤ NULL_NAME) then none
      else if st.2.2 + 1 = num_lms then some (ReducedText.Sorted num_lms, st.1)
      else
        (reduceCompact num_lms (saLen - num_lms) num_lms 0 [] st.1).map
          (fun p => (ReducedText.Reduced p.1 (st.2.2 + 1), p.2)))

/-- RecursiveBuilder::build, with fuel bounding the recursion depth. -/
def buildR : Nat → List Nat → Nat → Nat → (Nat → Nat) → Option (Nat → Nat)
  | 0, _, _, _, _ => none
  | fuel+1, t, sigma, saLen, sa =>
    if guardSum t sigma = false then none
    else
      match reduce t (buildSuffixData t sigma) saLen
        (induced_sort t (buildSuffixData t sigma) sa SeedMode.iter).1
        (induced_sort t (buildSuffixData t sigma) sa SeedMode.iter).2 with
      | none => none
      | some (ReducedText.Sorted num_lms, sa2) =>
        some (induced_sort t (buildSuffixData t sigma) sa2 (SeedMode.sorted num_lms)).1
      | some (ReducedText.Reduced rt sigma2, sa2) =>
        match buildR fuel rt sigma2 saLen sa2 with
        | none => none
        | some sa3 =>
          some (induced_sort t (buildSuffixData t sigma)
            ((List.range rt.length).foldl (fun sa4 i =>
              upd sa4 i
                (if lsGet (buildSuffixData t sigma).ls ((sa4 (rt.length + sa4 i)) * 2) ≠ SType
                 then (sa4 (rt.length + sa4 i)) * 2 + 1
                 else (sa4 (rt.length + sa4 i)) * 2)) sa3)
            (SeedMode.sorted rt.length)).1

/-- The two entry `assert!`s of SaIsBuilder::build:
`text.len() < (TextSize::MAX - 1)` and `!text.is_empty()`. -/
def saIsChecksPass (t : List Nat) : Bool :=
  decide (t.length < 2 ^ 32 - 2) && !(decide (t.length = 0))

/-- SaIsBuilder::build: entry checks, then the recursive builder on a
zero-initialised buffer of length n with alphabet 256, extracting
sa[0..n) as the result. -/
def saIsBuild (t : List Nat) : Option (List Nat) :=
  if saIsChecksPass t then
    (buildR (t.length + 1) t 256 t.length (fun _ => 0)).map
      (fun sa => (List.range t.length).map sa)
  else none

/-- validate_suffix_array from suffix_array.rs; `false` models a panic
(failed assert or rank check). -/
def validate_suffix_array (text : List Nat) (sa : List Nat) : Bool :=
  let len := text.length
  let inverse := (List.range len).foldl (fun f i => upd f (sa.getD i 0) i) (fun _ => 0)
  let saAt := fun i => sa.getD i 0
  let prev_rank0 : Int := if saAt 0 = len - 1 then -1 else ((inverse (saAt 0 + 1) : Nat) : Int)
  let init : Option (Nat × Int) := some (text.getD (saAt 0) 0, prev_rank0)
  let res := (List.range' 1 (len - 1 - 1)).foldl (fun acc i =>
    match acc with
    | none => none
    | some (prev_ch, prev_rank) =>
      let pos := saAt i
      let ch := text.getD pos 0
      if ch = prev_ch then
        if ¬ (pos + 1 < len) then none
        else
          let rank : Int := ((inverse (pos + 1) : Nat) : Int)
          if rank ≤ prev_rank then none
          else some (prev_ch, rank)
      else
        if ¬ (prev_ch < ch) then none
        else
          let rank : Int := if pos = len - 1 then -1 else ((inverse (pos + 1) : Nat) : Int)
          some (ch, rank)) init
  res.isSome

/-- Spec notion of the next LMS position after `p`: the least LMS position
strictly greater than `p`, or the pseudo-terminal `n` if there is none. -/
def nextLmsPos (n : Nat) (ls : List LSType) (p : Nat) : Nat :=
  (((List.range' (p + 1) (n - (p + 1))).filter (fun q => isLms ls q)).headD n)

/-- char_at lifted to the pseudo-terminal: `none` beyond the text, so the
implicit sentinel is distinct from every real character. -/
def charOpt (t : List Nat) (i : Nat) : Option Nat :=
  if i < t.length then some (charAt t i) else none

/-- Modelled from the spec: two LMS substrings (running from the LMS
position to the next LMS position, inclusive, where the next LMS position
may be the pseudo-terminal) are equal iff they have identical length,
identical characters and identical L/S type at every offset. -/
def lmsSubstringsEqualSpec (t : List Nat) (ls : List LSType) (a b : Nat) : Bool :=
  let n := t.length
  let ea := nextLmsPos n ls a
  let eb := nextLmsPos n ls b
  decide (ea - a = eb - b) &&
    (List.range (ea - a + 1)).all (fun i =>
      decide (charOpt t (a + i) = charOpt t (b + i)) &&
        decide (lsGet ls (a + i) = lsGet ls (b + i)))

set_option maxRecDepth 1000000

/-! ### Generic helper lemmas -/

theorem upd_same (f : Nat → Nat) (i v : Nat) : upd f i v i = v := by
  simp [upd]

theorem upd_other (f : Nat → Nat) (i v j : Nat) (h : j ≠ i) : upd f i v j = f j := by
  simp [upd, h]

theorem replicate_getD {α : Type} : ∀ (N i : Nat) (x d : α), i < N →
    (List.replicate N x).getD i d = x := by
  intro N
  induction N with
  | zero => intro i x d h; omega
  | succ N ih =>
    intro i x d h
    cases i with
    | zero => simp [List.replicate]
    | succ i => simp only [List.replicate, List.getD_cons_succ]; exact ih i x d (by omega)

theorem getD_append_left {α : Type} : ∀ (l l' : List α) (i : Nat) (d : α), i < l.length →
    (l ++ l').getD i d = l.getD i d := by
  intro l
  induction l with
  | nil => intro l' i d h; simp at h
  | cons x l ih =>
    intro l' i d h
    cases i with
    | zero => simp
    | succ i =>
      simp only [List.cons_append, List.getD_cons_succ]
      exact ih l' i d (by simp only [List.length_cons] at h; omega)

theorem getD_append_right_head {α : Type} (l : List α) (x d : α) :
    (l ++ [x]).getD l.length d = x := by
  induction l with
  | nil => simp
  | cons y l ih =>
    simp only [List.cons_append, List.length_cons, List.getD_cons_succ]
    exact ih

/-- Extract the least satisfying element from a filtered range. -/
theorem filter_range_cons (P Q : Nat → Bool) : ∀ (n r : Nat), r < n → P r = true →
    (∀ k, k < r → P k = false) → (∀ k, r < k → P k = Q k) → (∀ k, k ≤ r → Q k = false) →
    (List.range n).filter P = r :: (List.range n).filter Q := by
  intro n
  induction n with
  | zero => intro r hr; omega
  | succ n ih =>
    intro r hr hPr hbelow habove hQ
    rw [List.range_succ, List.filter_append, List.filter_append]
    by_cases hrn : r < n
    · rw [ih r hrn hPr hbelow habove hQ]
      have hPQ : P n = Q n := habove n (by omega)
      simp [List.filter, hPQ]
    · have hreq : r = n := by omega
      subst hreq
      have h1 : (List.range r).filter P = [] := by
        apply List.filter_eq_nil_iff.2
        intro k hk
        simp [hbelow k (List.mem_range.1 hk)]
      have h2 : (List.range r).filter Q = [] := by
        apply List.filter_eq_nil_iff.2
        intro k hk
        simp [hQ k (by have := List.mem_range.1 hk; omega)]
      simp [h1, h2, List.filter, hPr, hQ r le_rfl]

theorem foldl_fixed {α β : Type} (f : β → α → β) :
    ∀ (l : List α) (st : β), (∀ a ∈ l, f st a = st) → l.foldl f st = st := by
  intro l
  induction l with
  | nil => intro st _; rfl
  | cons a l ih =>
    intro st h
    have ha : f st a = st := h a (by simp)
    simp only [List.foldl, ha]
    exact ih st (fun x hx => h x (by simp [hx]))


theorem c4_counterexample :
    saIsChecksPass (List.replicate (2 ^ 32 - 2) 0) = false ∧
      1 ≤ (List.replicate (2 ^ 32 - 2) (0 : Nat)).length ∧
      (List.replicate (2 ^ 32 - 2) (0 : Nat)).length < 2 ^ 32 - 1 := by
  rw [saIsChecksPass, List.length_replicate]
  refine ⟨by norm_num, by omega, by omega⟩

/-- Claim C4 (amended): the entry checks of SaIsBuilder::build pass exactly
for 1 ≤ n < 2^32 - 2 (i.e. n < TextSize::MAX - 1). -/
theorem c4_checks_pass_iff (t : List Nat) :
    saIsChecksPass t = true ↔ (1 ≤ t.length ∧ t.length < 2 ^ 32 - 2) := by
  simp only [saIsChecksPass, Bool.and_eq_true, Bool.not_eq_true', decide_eq_true_eq,
    decide_eq_false_iff_not]
  omega

/-! ### Claim C5 : the validator -/

/-- Claim C5 (code bug): for T = "ab", SA = [0,0] has the right length and
in-range entries but is not a permutation of [0,2); the claim (and the
validator's own comment, which says entries up to sa[len-1] take part in
the check) requires rejection, yet validate_suffix_array accepts, because
its loop `for i in 1..len-1` never examines the final entry. -/
theorem c5_validator_accepts_non_permutation :
    validate_suffix_array [97, 98] [0, 0] = true ∧
      ¬ List.Perm [0, 0] (List.range 2) := by
  constructor
  · decide
  · decide

/-! ### Claim C10 : the recursion shrinks -/

theorem reduceCompact_length (num_lms : Nat) :
    ∀ (fuel i j : Nat) (acc : List Nat) (sa : Nat → Nat) (res : List Nat) (sa2 : Nat → Nat),
      reduceCompact num_lms fuel i j acc sa = some (res, sa2) →
      j < num_lms →
      res.length = acc.length + (num_lms - j) := by
  intro fuel
  induction fuel with
  | zero =>
    intro i j acc sa res sa2 h _
    simp [reduceCompact] at h
  | succ fuel ih =>
    intro i j acc sa res sa2 h hj
    rw [reduceCompact] at h
    by_cases hn : sa i ≠ NULL_NAME
    · simp only [if_pos hn] at h
      by_cases hj2 : j + 1 = num_lms
      · simp only [if_pos hj2] at h
        have h1 : acc ++ [sa i] = res := congrArg Prod.fst (Option.some.inj h)
        rw [← h1]
        simp
        omega
      · simp only [if_neg hj2] at h
        have := ih (i + 1) (j + 1) (acc ++ [sa i]) (upd sa (j + num_lms) (i - num_lms))
          res sa2 h (by omega)
        simp at this
        omega
    · simp only [if_neg hn] at h
      exact ih (i + 1) j acc sa res sa2 h hj

/-- Claim C10: whenever reduce decides to recurse (returns Reduced), the
reduced text has length m with 2 ≤ m, 2·m ≤ n and m < n, so each recursive
call of build strictly shrinks the text. -/
theorem c10_reduced_text_shrinks (t : List Nat) (sigma saLen : Nat)
    (sa tails : Nat → Nat) (rt : List Nat) (sigma2 : Nat)
    (h : Option.map Prod.fst (reduce t (buildSuffixData t sigma) saLen sa tails)
        = some (ReducedText.Reduced rt sigma2)) :
    2 ≤ rt.length ∧ 2 * rt.length ≤ t.length ∧ rt.length < t.length := by
  rw [reduce] at h
  set ext := reduceExtract (buildSuffixData t sigma) sa tails with hext
  by_cases h1 : ¬ (ext.2 ≤ t.length / 2)
  · simp only [if_pos h1] at h
    simp at h
  · simp only [if_neg h1] at h
    by_cases h2 : ext.2 < 2
    · simp only [if_pos h2] at h
      simp at h
    · simp only [if_neg h2] at h
      set sa2 := reduceClear ext.2 (t.length / 2) ext.1 with hsa2
      rcases hfold : (List.range' 1 (ext.2 - 1)).foldl
          (reduceNameLoop t (buildSuffixData t sigma).ls ext.2)
          (some (upd sa2 (ext.2 + sa2 0 / 2) 0, sa2 0, 0)) with _ | st
      · rw [hfold] at h
        simp at h
      · rw [hfold] at h
        simp only [Option.some_bind] at h
        by_cases h3 : ¬ (st.2.2 + 1 ≤ NULL_NAME)
        · simp only [if_pos h3] at h
          simp at h
        · simp only [if_neg h3] at h
          by_cases h4 : st.2.2 + 1 = ext.2
          · simp only [if_pos h4] at h
            simp at h
          · simp only [if_neg h4] at h
            rw [Option.map_map] at h
            rcases Option.map_eq_some'.1 h with ⟨p, hp, hpe⟩
            have hlen : p.1.length = ext.2 := by
              have := reduceCompact_length ext.2 (saLen - ext.2) ext.2 0 [] st.1 p.1 p.2
                (by rw [← hp]) (by omega)
              simpa using this
            have hrt : rt = p.1 := by
              simp only [Function.comp_apply] at hpe
              injection hpe with h5 h6
              exact h5.symm
            rw [hrt, hlen]
            omega

/-- Witness for C10: on the text "abababab" the pipeline does recurse, with
reduced text [1,1,0] of length 3, and 2 ≤ 3, 2·3 ≤ 8, 3 < 8. -/
theorem c10_witness :
    2 ≤ ([1, 1, 0] : List Nat).length ∧
      2 * ([1, 1, 0] : List Nat).length ≤ ([97, 98, 97, 98, 97, 98, 97, 98] : List Nat).length ∧
      ([1, 1, 0] : List Nat).length < ([97, 98, 97, 98, 97, 98, 97, 98] : List Nat).length :=
  c10_reduced_text_shrinks [97, 98, 97, 98, 97, 98, 97, 98] 256 8
    (induced_sort [97, 98, 97, 98, 97, 98, 97, 98]
      (buildSuffixData [97, 98, 97, 98, 97, 98, 97, 98] 256) (fun _ => 0) SeedMode.iter).1
    (induced_sort [97, 98, 97, 98, 97, 98, 97, 98]
      (buildSuffixData [97, 98, 97, 98, 97, 98, 97, 98] 256) (fun _ => 0) SeedMode.iter).2
    [1, 1, 0] 2 (by decide)

/-! ### Well-formedness of the L/S classification -/

theorem headD_eq_getD {α : Type} (l : List α) (d : α) : l.headD d = l.getD 0 d := by
  cases l <;> rfl

theorem lsTypes_length (t : List Nat) : (lsTypes t).length = t.length := by
  induction t with
  | nil => rfl
  | cons c rest ih =>
    cases rest with
    | nil => rfl
    | cons c2 rest2 =>
      simp only [lsTypes, List.length_cons]
      simp only [List.length_cons] at ih
      omega

theorem lsTypes_getD_last (t : List Nat) (h : 1 ≤ t.length) :
    (lsTypes t).getD (t.length - 1) NAType = LType := by
  induction t with
  | nil => simp at h
  | cons c rest ih =>
    cases rest with
    | nil => rfl
    | cons c2 rest2 =>
      have hih := ih (by simp)
      simp only [List.length_cons] at hih ⊢
      have hidx : rest2.length + 1 + 1 - 1 = rest2.length + 1 := rfl
      rw [hidx]
      simp only [lsTypes, List.getD_cons_succ]
      simpa using hih

theorem lsTypes_getD_ne_NA (t : List Nat) : ∀ i, i < t.length →
    (lsTypes t).getD i NAType ≠ NAType := by
  induction t with
  | nil => intro i h; simp at h
  | cons c rest ih =>
    cases rest with
    | nil =>
      intro i h
      simp only [List.length_cons, List.length_nil] at h
      have : i = 0 := by omega
      subst this
      simp [lsTypes]
    | cons c2 rest2 =>
      intro i h
      cases i with
      | zero =>
        simp only [lsTypes, List.getD_cons_zero]
        by_cases h1 : c < c2
        · simp [h1]
        · by_cases h2 : c2 < c
          · simp [h1, h2]
          · simp only [if_neg h1, if_neg h2]
            have h0 := ih 0 (by simp)
            cases hls : lsTypes (c2 :: rest2) with
            | nil =>
              have hl := lsTypes_length (c2 :: rest2)
              rw [hls] at hl
              simp at hl
            | cons a l =>
              rw [hls] at h0
              simpa using h0
      | succ i =>
        simp only [lsTypes, List.getD_cons_succ]
        exact ih i (by simp only [List.length_cons] at h ⊢; omega)

theorem lsArr_length (t : List Nat) : (lsArr t).length = t.length + 1 := by
  simp [lsArr, lsTypes_length]

theorem lsGet_lsArr_lt (t : List Nat) (i : Nat) (h : i < t.length) :
    lsGet (lsArr t) i = (lsTypes t).getD i NAType := by
  rw [lsGet, lsArr, getD_append_left]
  rw [lsTypes_length]
  exact h

theorem lsGet_lsArr_len (t : List Nat) : lsGet (lsArr t) t.length = SType := by
  rw [lsGet, lsArr]
  have h := getD_append_right_head (lsTypes t) SType NAType
  rw [lsTypes_length] at h
  exact h

theorem lsGet_lsArr_last (t : List Nat) (h : 1 ≤ t.length) :
    lsGet (lsArr t) (t.length - 1) = LType := by
  rw [lsGet_lsArr_lt t _ (by omega)]
  exact lsTypes_getD_last t h

theorem lsGet_lsArr_ne_NA (t : List Nat) (i : Nat) (h : i < t.length) :
    lsGet (lsArr t) i ≠ NAType := by
  rw [lsGet_lsArr_lt t i h]
  exact lsTypes_getD_ne_NA t i h

theorem lsGet_lsArr_L_or_S (t : List Nat) (i : Nat) (h : i ≤ t.length) :
    lsGet (lsArr t) i = LType ∨ lsGet (lsArr t) i = SType := by
  by_cases he : i = t.length
  · subst he
    right
    exact lsGet_lsArr_len t
  · have hlt : i < t.length := by omega
    have := lsGet_lsArr_ne_NA t i hlt
    cases hv : lsGet (lsArr t) i
    · left; rfl
    · right; rfl
    · exact absurd hv this

/-! ### The LmsIterator produces exactly the LMS positions -/

theorem scanS_eq (ls : List LSType) : ∀ (fuel pos j : Nat), pos ≤ j → j - pos ≤ fuel →
    (∀ k, pos ≤ k → k < j → lsGet ls k = SType) → lsGet ls j ≠ SType →
    scanS ls fuel pos = j := by
  intro fuel
  induction fuel with
  | zero =>
    intro pos j h1 h2 _ hj
    have : pos = j := by omega
    subst this
    simp [scanS]
  | succ fuel ih =>
    intro pos j h1 h2 hall hj
    by_cases hpj : pos = j
    · subst hpj
      simp [scanS, hj]
    · have hS : lsGet ls pos = SType := hall pos le_rfl (by omega)
      simp only [scanS, if_pos hS]
      exact ih (pos + 1) j (by omega) (by omega) (fun k hk1 hk2 => hall k (by omega) hk2) hj

theorem scanL_eq (ls : List LSType) : ∀ (fuel pos j : Nat), pos ≤ j → j - pos ≤ fuel →
    (∀ k, pos ≤ k → k < j → lsGet ls k = LType) → lsGet ls j ≠ LType →
    scanL ls fuel pos = j := by
  intro fuel
  induction fuel with
  | zero =>
    intro pos j h1 h2 _ hj
    have : pos = j := by omega
    subst this
    simp [scanL]
  | succ fuel ih =>
    intro pos j h1 h2 hall hj
    by_cases hpj : pos = j
    · subst hpj
      simp [scanL, hj]
    · have hL : lsGet ls pos = LType := hall pos le_rfl (by omega)
      simp only [scanL, if_pos hL]
      exact ih (pos + 1) j (by omega) (by omega) (fun k hk1 hk2 => hall k (by omega) hk2) hj

theorem lmsNext_spec (t : List Nat) (h1 : 1 ≤ t.length) (pos : Nat) (hpos : pos < t.length) :
    pos < lmsNext (lsArr t) pos ∧ lmsNext (lsArr t) pos ≤ t.length ∧
      (∀ k, pos < k → k < lmsNext (lsArr t) pos → isLms (lsArr t) k = false) ∧
      (lmsNext (lsArr t) pos < t.length → isLms (lsArr t) (lmsNext (lsArr t) pos) = true) := by
  set ls := lsArr t with hls
  set n := t.length with hn
  have hlen : ls.length = n + 1 := lsArr_length t
  have hex1 : ∃ k, lsGet ls (pos + k) ≠ SType := by
    refine ⟨(n - 1) - pos, ?_⟩
    have : pos + ((n - 1) - pos) = n - 1 := by omega
    rw [this, lsGet_lsArr_last t h1]
    simp
  set k1 := Nat.find hex1 with hk1
  set j1 := pos + k1 with hj1
  have hj1ne : lsGet ls j1 ≠ SType := Nat.find_spec hex1
  have hj1min : ∀ k, k < k1 → lsGet ls (pos + k) = SType := by
    intro k hk
    have := Nat.find_min hex1 hk
    simpa using this
  have hk1le : k1 ≤ (n - 1) - pos := by
    apply Nat.find_le
    have : pos + ((n - 1) - pos) = n - 1 := by omega
    rw [this, lsGet_lsArr_last t h1]
    simp
  have hj1lt : j1 ≤ n - 1 := by omega
  have hscanS : scanS ls ls.length pos = j1 := by
    apply scanS_eq ls ls.length pos j1 (by omega) (by omega)
    · intro k hk1' hk2
      have : k = pos + (k - pos) := by omega
      rw [this]
      exact hj1min (k - pos) (by omega)
    · exact hj1ne
  have hex2 : ∃ k, lsGet ls (j1 + 1 + k) ≠ LType := by
    refine ⟨n - (j1 + 1), ?_⟩
    have : j1 + 1 + (n - (j1 + 1)) = n := by omega
    rw [this, lsGet_lsArr_len t]
    simp
  set k2 := Nat.find hex2 with hk2
  set r := j1 + 1 + k2 with hr
  have hrne : lsGet ls r ≠ LType := Nat.find_spec hex2
  have hrmin : ∀ k, k < k2 → lsGet ls (j1 + 1 + k) = LType := by
    intro k hk
    have := Nat.find_min hex2 hk
    simpa using this
  have hk2le : k2 ≤ n - (j1 + 1) := by
    apply Nat.find_le
    have : j1 + 1 + (n - (j1 + 1)) = n := by omega
    rw [this, lsGet_lsArr_len t]
    simp
  have hrle : r ≤ n := by omega
  have hscanL : scanL ls ls.length (j1 + 1) = r := by
    apply scanL_eq ls ls.length (j1 + 1) r (by omega) (by omega)
    · intro k hk1' hk2'
      have : k = j1 + 1 + (k - (j1 + 1)) := by omega
      rw [this]
      exact hrmin (k - (j1 + 1)) (by omega)
    · exact hrne
  have hnext : lmsNext ls pos = r := by
    rw [lmsNext, hscanS, hscanL]
  rw [hnext]
  refine ⟨by omega, hrle, ?_, ?_⟩
  · intro k hk1' hk2'
    by_cases hcase : k ≤ j1
    · by_cases hcase2 : k = j1
      · rw [hcase2]
        simp [isLms, hj1ne]
      · have hkS : lsGet ls (k - 1) = SType := by
          have hke : k - 1 = pos + ((k - 1) - pos) := by omega
          rw [hke]
          exact hj1min ((k - 1) - pos) (by omega)
        simp [isLms, hkS]
    · have hkL : lsGet ls k = LType := by
        have hke : k = j1 + 1 + (k - (j1 + 1)) := by omega
        rw [hke]
        exact hrmin (k - (j1 + 1)) (by omega)
      simp [isLms, hkL]
  · intro hrn
    have hrS : lsGet ls r = SType := by
      rcases lsGet_lsArr_L_or_S t r (by omega) with h | h
      · exact absurd h hrne
      · exact h
    have hprevL : lsGet ls (r - 1) = LType := by
      by_cases hc : k2 = 0
      · have : r - 1 = j1 := by omega
        rw [this]
        rcases lsGet_lsArr_L_or_S t j1 (by omega) with h | h
        · exact h
        · exact absurd h hj1ne
      · have : r - 1 = j1 + 1 + (k2 - 1) := by omega
        rw [this]
        exact hrmin (k2 - 1) (by omega)
    simp [isLms, hrS, hprevL]
    omega

theorem lmsAux_eq (t : List Nat) (h1 : 1 ≤ t.length) :
    ∀ (fuel pos : Nat), pos < t.length → t.length - pos ≤ fuel →
      lmsAux (lsArr t) fuel pos
        = (List.range t.length).filter (fun p => isLms (lsArr t) p && decide (pos < p)) := by
  intro fuel
  induction fuel with
  | zero => intro pos h2 h3; omega
  | succ fuel ih =>
    intro pos h2 h3
    obtain ⟨hlt, hle, hmid, hlms⟩ := lmsNext_spec t h1 pos h2
    rw [lmsAux]
    have hguard : ((lsArr t).length - 1) = t.length := by
      rw [lsArr_length]
      omega
    by_cases hr : lmsNext (lsArr t) pos < t.length
    · rw [if_pos (by rw [hguard]; exact hr)]
      rw [ih (lmsNext (lsArr t) pos) hr (by omega)]
      rw [filter_range_cons (fun p => isLms (lsArr t) p && decide (pos < p))
        (fun p => isLms (lsArr t) p && decide (lmsNext (lsArr t) pos < p))
        t.length (lmsNext (lsArr t) pos) hr ?_ ?_ ?_ ?_]
      · simp [hlms hr, hlt]
      · intro k hk
        by_cases hkp : pos < k
        · simp [hmid k hkp hk]
        · simp [hkp]
      · intro k hk
        have h5 : pos < k := by omega
        simp [h5, hk]
      · intro k hk
        simp
        omega
    · rw [if_neg (by rw [hguard]; exact hr)]
      symm
      apply List.filter_eq_nil_iff.2
      intro p hp
      have hpn : p < t.length := List.mem_range.1 hp
      by_cases hpp : pos < p
      · have : isLms (lsArr t) p = false := hmid p hpp (by omega)
        simp [this]
      · simp [hpp]

theorem lmsList_eq (t : List Nat) (h1 : 1 ≤ t.length) :
    lmsList (lsArr t) = (List.range t.length).filter (isLms (lsArr t)) := by
  rw [lmsList, lmsAux_eq t h1 (lsArr t).length 0 h1 (by rw [lsArr_length]; omega)]
  apply List.filter_congr
  intro p hp
  cases hi : isLms (lsArr t) p
  · simp [hi]
  · have hpos : 0 < p := by
      by_contra hc
      have hp0 : p = 0 := by omega
      rw [hp0] at hi
      simp [isLms] at hi
    simp [hi, hpos]

/-! ### Claim C6 : what induced_sort's tail counters hold -/

theorem assign_ltype_tails (t : List Nat) (bk : Nat → Bucket) (pos : Nat) (st : ISState) :
    (assign_ltype t bk pos st).tails = st.tails := rfl

theorem lHeadScan_tails (t : List Nat) (sd : SuffixData) (b : Nat) :
    ∀ (fuel i : Nat) (st : ISState), (lHeadScan t sd b fuel i st).tails = st.tails := by
  intro fuel
  induction fuel with
  | zero => intro i st; rfl
  | succ fuel ih =>
    intro i st
    rw [lHeadScan]
    by_cases h : i < st.heads b
    · rw [if_pos h, ih]
      by_cases h2 : prevType sd (st.sa ((sd.buckets b).start + i)) = LType
      · rw [if_pos h2, assign_ltype_tails]
      · rw [if_neg h2]
    · rw [if_neg h]

theorem foldl_tails {α : Type} (f : ISState → α → ISState)
    (hf : ∀ st a, (f st a).tails = st.tails) :
    ∀ (l : List α) (st : ISState), (l.foldl f st).tails = st.tails := by
  intro l
  induction l with
  | nil => intro st; rfl
  | cons a l ih =>
    intro st
    simp only [List.foldl_cons]
    rw [ih, hf]

theorem lTailLoop_tails (t : List Nat) (sd : SuffixData) (b : Nat) (st : ISState) :
    (lTailLoop t sd b st).tails = st.tails := by
  rw [lTailLoop]
  exact foldl_tails
    (fun st2 k => assign_ltype t sd.buckets (st2.sa ((sd.buckets b).stop - st.tails b + k) - 1) st2)
    (fun st2 k => rfl) _ st

theorem lPass_tails (t : List Nat) (sd : SuffixData) (st : ISState) :
    (lPass t sd st).tails = st.tails := by
  rw [lPass]
  refine foldl_tails _ (fun st b => ?_) _ st
  rw [lTailLoop_tails, lHeadScan_tails]

theorem seed_tails_count (t : List Nat) (bk : Nat → Bucket) (c : Nat) :
    ∀ (l : List Nat) (st : ISState),
      ((l.foldl (fun st pos => assign_stype t bk pos st) st).tails) c
        = st.tails c + l.countP (fun p => decide (charAt t p = c)) := by
  intro l
  induction l with
  | nil => intro st; simp
  | cons p l ih =>
    intro st
    simp only [List.foldl_cons, List.countP_cons]
    rw [ih]
    have hstep : (assign_stype t bk p st).tails c
        = st.tails c + (if charAt t p = c then 1 else 0) := by
      rw [assign_stype]
      simp only [upd]
      by_cases hc : c = charAt t p
      · rw [hc]
        simp
      · have hc2 : ¬ (charAt t p = c) := fun he => hc he.symm
        simp [hc, hc2]
    rw [hstep]
    by_cases hp : charAt t p = c
    · simp [hp]
      omega
    · simp [hp]

/-- Claim C6 (amended): at the end of L-induction (after seeding from the
LmsIterator, placing position n-1, and running the L pass, but before the
reset that precedes S-induction) the bucket tail counter at index c equals
the number of LMS positions of the text whose first character is c.
induced_sort however returns the counters as refilled by S-induction, not
these (see the counterexample theorem). -/
theorem c6_end_of_l_induction_tail_counts (t : List Nat) (sigma c : Nat)
    (h1 : 1 ≤ t.length) :
    (lPass t (buildSuffixData t sigma)
        (assign_ltype t (buildSuffixData t sigma).buckets (t.length - 1)
          (seedStage t (buildSuffixData t sigma) SeedMode.iter
            ⟨fun _ => 0, fun _ => 0, fun _ => 0⟩))).tails c
      = ((List.range t.length).filter (isLms (lsArr t))).countP
          (fun p => decide (charAt t p = c)) := by
  rw [lPass_tails, assign_ltype_tails]
  show (seedStage t (buildSuffixData t sigma) SeedMode.iter
      ⟨fun _ => 0, fun _ => 0, fun _ => 0⟩).tails c = _
  rw [seedStage]
  have hls : (buildSuffixData t sigma).ls = lsArr t := rfl
  rw [hls, seed_tails_count, lmsList_eq t h1]
  simp

/-- Claim C6 (counterexample): for the text "ab" (no LMS positions at all)
the vector actually returned by induced_sort has value 1 at index 97,
while the number of LMS positions with first character 97 is 0 — the
returned vector is the tail counters after S-induction, not the
end-of-L-induction (LMS) counts the claim describes. -/
theorem c6_counterexample :
    (induced_sort [97, 98] (buildSuffixData [97, 98] 256) (fun _ => 0) SeedMode.iter).2 97 = 1 ∧
      ((List.range 2).filter (isLms (lsArr [97, 98]))).countP
        (fun p => decide (charAt [97, 98] p = 97)) = 0 := by
  constructor
  · decide
  · decide

/-- Witness for C6 at the text "ab", character 97. -/
theorem c6_witness :
    1 ≤ ([97, 98] : List Nat).length ∧
      (lPass [97, 98] (buildSuffixData [97, 98] 256)
          (assign_ltype [97, 98] (buildSuffixData [97, 98] 256).buckets 1
            (seedStage [97, 98] (buildSuffixData [97, 98] 256) SeedMode.iter
              ⟨fun _ => 0, fun _ => 0, fun _ => 0⟩))).tails 97
        = ((List.range 2).filter (isLms (lsArr [97, 98]))).countP
            (fun p => decide (charAt [97, 98] p = 97)) :=
  ⟨by decide, c6_end_of_l_induction_tail_counts [97, 98] 256 97 (by decide)⟩

/-! ### Claim C3 : uniform texts -/

theorem lsTypes_replicate (c : Nat) : ∀ M, lsTypes (List.replicate (M + 1) c) = List.replicate (M + 1) LType := by
  intro M
  induction M with
  | zero => rfl
  | succ M ih =>
    have h1 : List.replicate (M + 2) c = c :: c :: List.replicate M c := by
      simp [List.replicate]
    have h2 : List.replicate (M + 1) c = c :: List.replicate M c := by
      simp [List.replicate]
    rw [h1]
    simp only [lsTypes]
    rw [← h2, ih]
    simp [List.replicate]

theorem lsArr_replicate_lt (N c i : Nat) (h1 : 1 ≤ N) (h : i < N) :
    lsGet (lsArr (List.replicate N c)) i = LType := by
  have hh : lsTypes (List.replicate N c) = List.replicate N LType := by
    obtain ⟨M, rfl⟩ : ∃ M, N = M + 1 := ⟨N - 1, by omega⟩
    exact lsTypes_replicate c M
  rw [lsGet_lsArr_lt _ i (by simpa using h), hh]
  exact replicate_getD N i LType NAType h

theorem charAt_replicate (N c i : Nat) (h : i < N) : charAt (List.replicate N c) i = c := by
  rw [charAt]
  exact replicate_getD N i c 0 h

theorem countCh_replicate (N c x : Nat) :
    countCh (List.replicate N c) x = if x = c then N else 0 := by
  rw [countCh, List.count_replicate]
  by_cases h : x = c
  · simp [h]
  · have h2 : ¬ (c = x) := fun he => h he.symm
    simp [h, h2]

theorem sumBelow_replicate_self (N c : Nat) : sumBelow (List.replicate N c) c = 0 := by
  rw [sumBelow]
  apply List.sum_eq_zero
  intro x hx
  simp only [List.mem_map] at hx
  obtain ⟨j, hj, rfl⟩ := hx
  rw [countCh_replicate]
  have hjc : j ≠ c := by have := List.mem_range.1 hj; omega
  simp [hjc]

theorem bucketFor_replicate_self (N c : Nat) :
    bucketFor (List.replicate N c) c = ⟨0, N⟩ := by
  rw [bucketFor, sumBelow_replicate_self, countCh_replicate]
  simp

theorem bucket_indexes_replicate (N c sigma : Nat) (h1 : 1 ≤ N) (hc : c < sigma) :
    (buildSuffixData (List.replicate N c) sigma).bucket_indexes = [c] := by
  show (List.range sigma).filter (fun x => decide (0 < countCh (List.replicate N c) x)) = [c]
  rw [filter_range_cons _ (fun _ => false) sigma c hc ?_ ?_ ?_ ?_]
  · simp
  · rw [countCh_replicate]
    simp
    omega
  · intro k hk
    rw [countCh_replicate]
    have : k ≠ c := by omega
    simp [this]
  · intro k hk
    rw [countCh_replicate]
    have : k ≠ c := by omega
    simp [this]
  · intro k _
    rfl

theorem sum_map_ite (c v : Nat) : ∀ sigma, c < sigma →
    ((List.range sigma).map (fun j => if j = c then v else 0)).sum = v := by
  intro sigma
  induction sigma with
  | zero => intro h; omega
  | succ sigma ih =>
    intro h
    rw [List.range_succ, List.map_append, List.sum_append]
    by_cases hcs : c < sigma
    · rw [ih hcs]
      have hne : sigma ≠ c := by omega
      simp [hne]
    · have hce : sigma = c := by omega
      subst hce
      have hz : ((List.range sigma).map (fun j => if j = sigma then v else 0)).sum = 0 := by
        apply List.sum_eq_zero
        intro x hx
        simp only [List.mem_map] at hx
        obtain ⟨j, hj, rfl⟩ := hx
        have hne : j ≠ sigma := by have := List.mem_range.1 hj; omega
        simp [hne]
      rw [hz]
      simp

theorem guardSum_replicate (N c sigma : Nat) (hc : c < sigma) :
    guardSum (List.replicate N c) sigma = true := by
  rw [guardSum]
  have hmap : (List.range sigma).map (countCh (List.replicate N c))
      = (List.range sigma).map (fun j => if j = c then N else 0) := by
    apply List.map_congr_left
    intro j _
    exact countCh_replicate N c j
  rw [hmap, sum_map_ite c N sigma hc]
  simp

theorem lmsList_replicate (N c : Nat) (h1 : 1 ≤ N) :
    lmsList (lsArr (List.replicate N c)) = [] := by
  have hlen : (List.replicate N c).length = N := by simp
  rw [lmsList_eq _ (by rw [hlen]; exact h1)]
  apply List.filter_eq_nil_iff.2
  intro p hp
  have hpN : p < N := by rw [hlen] at hp; exact List.mem_range.1 hp
  have hL := lsArr_replicate_lt N c p h1 hpN
  simp [isLms, hL]

theorem prevType_uniform (N c sigma : Nat) (h1 : 1 ≤ N) (pos : Nat) (hpos : pos < N) :
    prevType (buildSuffixData (List.replicate N c) sigma) pos
      = if pos = 0 then NAType else LType := by
  rw [prevType]
  by_cases h : pos = 0
  · simp [h]
  · simp only [if_neg h]
    show lsGet (lsArr (List.replicate N c)) (pos - 1) = LType
    exact lsArr_replicate_lt N c (pos - 1) h1 (by omega)

theorem lHeadScan_stop (t : List Nat) (sd : SuffixData) (b : Nat) (fuel i : Nat) (st : ISState)
    (h : ¬ i < st.heads b) : lHeadScan t sd b fuel i st = st := by
  cases fuel with
  | zero => rfl
  | succ fuel => rw [lHeadScan, if_neg h]

theorem lHeadScan_uniform (N c sigma : Nat) (h1 : 1 ≤ N) :
    ∀ (fuel i : Nat) (st : ISState),
      i < N → N - i ≤ fuel →
      st.heads c = i + 1 →
      (∀ j, j ≤ i → st.sa j = N - 1 - j) →
      (∀ j, j < N →
        (lHeadScan (List.replicate N c) (buildSuffixData (List.replicate N c) sigma)
          c fuel i st).sa j = N - 1 - j) ∧
      (lHeadScan (List.replicate N c) (buildSuffixData (List.replicate N c) sigma)
          c fuel i st).heads c = N := by
  intro fuel
  induction fuel with
  | zero => intro i st h2 h3; omega
  | succ fuel ih =>
    intro i st h2 h3 hheads hsa
    have hbk : (buildSuffixData (List.replicate N c) sigma).buckets c = ⟨0, N⟩ :=
      bucketFor_replicate_self N c
    rw [lHeadScan, if_pos (by rw [hheads]; omega), hbk]
    have hidx : (Bucket.mk 0 N).start + i = i := by simp
    rw [hidx, hsa i le_rfl]
    by_cases hi : i + 1 < N
    · have hp0 : N - 1 - i ≠ 0 := by omega
      have hprev : prevType (buildSuffixData (List.replicate N c) sigma) (N - 1 - i) = LType := by
        rw [prevType_uniform N c sigma h1 _ (by omega), if_neg hp0]
      rw [if_pos hprev]
      have hch : charAt (List.replicate N c) (N - 1 - i - 1) = c :=
        charAt_replicate N c _ (by omega)
      have hasn : assign_ltype (List.replicate N c)
          (buildSuffixData (List.replicate N c) sigma).buckets (N - 1 - i - 1) st
          = { st with
              heads := upd st.heads c (i + 2)
              sa := upd st.sa (i + 1) (N - 1 - (i + 1)) } := by
        rw [assign_ltype]
        simp only [hch, hbk, hheads]
        have e1 : (Bucket.mk 0 N).start + (i + 1) = i + 1 := by simp
        have e2 : N - 1 - i - 1 = N - 1 - (i + 1) := by omega
        rw [e1, e2]
      rw [hasn]
      apply ih (i + 1)
      · exact hi
      · omega
      · exact upd_same st.heads c (i + 2)
      · intro j hj
        by_cases hje : j = i + 1
        · rw [hje]
          exact upd_same st.sa (i + 1) (N - 1 - (i + 1))
        · show upd st.sa (i + 1) (N - 1 - (i + 1)) j = N - 1 - j
          rw [upd_other st.sa (i + 1) (N - 1 - (i + 1)) j hje]
          exact hsa j (by omega)
    · have hie : i + 1 = N := by omega
      have hp0 : N - 1 - i = 0 := by omega
      have hprev : prevType (buildSuffixData (List.replicate N c) sigma) (N - 1 - i) ≠ LType := by
        rw [hp0, prevType_uniform N c sigma h1 0 (by omega)]
        simp
      rw [if_neg hprev]
      rw [lHeadScan_stop _ _ _ _ _ _ (by rw [hheads]; omega)]
      constructor
      · intro j hj
        exact hsa j (by omega)
      · rw [hheads]
        omega

theorem lTailLoop_zero (t : List Nat) (sd : SuffixData) (b : Nat) (st : ISState)
    (h : st.tails b = 0) : lTailLoop t sd b st = st := by
  simp only [lTailLoop, h, List.range_zero, List.foldl_nil]

theorem sTailScan_stop (t : List Nat) (sd : SuffixData) (b : Nat) (fuel : Nat) (st : ISState)
    (h : st.tails b = 0) : sTailScan t sd b fuel 0 st = st := by
  cases fuel with
  | zero => rfl
  | succ fuel => rw [sTailScan, if_neg (by rw [h]; omega)]

theorem sHeadLoop_uniform (N c sigma : Nat) (h1 : 1 ≤ N) (st : ISState)
    (hsa : ∀ j, j < N → st.sa j = N - 1 - j) (hheads : st.heads c = N) :
    sHeadLoop (List.replicate N c) (buildSuffixData (List.replicate N c) sigma) c st = st := by
  have hbk : (buildSuffixData (List.replicate N c) sigma).buckets c = ⟨0, N⟩ :=
    bucketFor_replicate_self N c
  simp only [sHeadLoop, hbk, hheads]
  apply foldl_fixed
  intro k hk
  have hkN : k < N := by
    rw [List.mem_reverse] at hk
    exact List.mem_range.1 hk
  have hidx : (Bucket.mk 0 N).start + k = k := by simp
  rw [hidx, hsa k hkN]
  have hprev : prevType (buildSuffixData (List.replicate N c) sigma) (N - 1 - k) ≠ SType := by
    rw [prevType_uniform N c sigma h1 _ (by omega)]
    by_cases h0 : N - 1 - k = 0
    · simp [h0]
    · simp [h0]
  rw [if_neg hprev]

theorem lPass_uniform (N c sigma : Nat) (h1 : 1 ≤ N) (hc : c < sigma) (st : ISState)
    (hheads : st.heads c = 1) (hsa0 : st.sa 0 = N - 1) (htails : st.tails c = 0) :
    (∀ j, j < N →
      (lPass (List.replicate N c) (buildSuffixData (List.replicate N c) sigma) st).sa j
        = N - 1 - j) ∧
    (lPass (List.replicate N c) (buildSuffixData (List.replicate N c) sigma) st).heads c = N ∧
    (lPass (List.replicate N c) (buildSuffixData (List.replicate N c) sigma) st).tails
      = st.tails := by
  have hscan := lHeadScan_uniform N c sigma h1 ((List.replicate N c).length + 1) 0 st
    (by omega) (by simp only [List.length_replicate]; omega) hheads
    (by
      intro j hj
      have hj0 : j = 0 := by omega
      rw [hj0, hsa0]
      omega)
  have htl : (lHeadScan (List.replicate N c) (buildSuffixData (List.replicate N c) sigma) c
      ((List.replicate N c).length + 1) 0 st).tails = st.tails :=
    lHeadScan_tails _ _ _ _ _ _
  rw [lPass, bucket_indexes_replicate N c sigma h1 hc]
  simp only [List.foldl_cons, List.foldl_nil]
  rw [lTailLoop_zero _ _ _ _ (by rw [htl]; exact htails)]
  exact ⟨hscan.1, hscan.2, htl⟩

theorem sPass_uniform (N c sigma : Nat) (h1 : 1 ≤ N) (hc : c < sigma) (st : ISState)
    (hsa : ∀ j, j < N → st.sa j = N - 1 - j) (hheads : st.heads c = N)
    (htails : st.tails c = 0) :
    sPass (List.replicate N c) (buildSuffixData (List.replicate N c) sigma) st = st := by
  rw [sPass, bucket_indexes_replicate N c sigma h1 hc]
  simp only [List.reverse_cons, List.reverse_nil, List.nil_append, List.foldl_cons,
    List.foldl_nil]
  rw [sTailScan_stop _ _ _ _ _ htails]
  exact sHeadLoop_uniform N c sigma h1 st hsa hheads

theorem induced_sort_uniform (N c sigma : Nat) (h1 : 1 ≤ N) (hc : c < sigma)
    (sa0 : Nat → Nat) (mode : SeedMode)
    (hmode : mode = SeedMode.iter ∨ mode = SeedMode.sorted 0) :
    (∀ j, j < N →
      (induced_sort (List.replicate N c) (buildSuffixData (List.replicate N c) sigma)
        sa0 mode).1 j = N - 1 - j) ∧
    (∀ x, (induced_sort (List.replicate N c) (buildSuffixData (List.replicate N c) sigma)
        sa0 mode).2 x = 0) := by
  have hbk : (buildSuffixData (List.replicate N c) sigma).buckets c = ⟨0, N⟩ :=
    bucketFor_replicate_self N c
  have hlen : (List.replicate N c).length = N := by simp
  have hseed : seedStage (List.replicate N c) (buildSuffixData (List.replicate N c) sigma)
      mode ⟨sa0, fun _ => 0, fun _ => 0⟩ = ⟨sa0, fun _ => 0, fun _ => 0⟩ := by
    rcases hmode with hm | hm
    · rw [hm, seedStage]
      have hls : (buildSuffixData (List.replicate N c) sigma).ls
          = lsArr (List.replicate N c) := rfl
      rw [hls, lmsList_replicate N c h1, List.foldl_nil]
    · rw [hm, seedStage]
      simp
  have hch : charAt (List.replicate N c) (N - 1) = c := charAt_replicate N c _ (by omega)
  have hasn : assign_ltype (List.replicate N c)
      (buildSuffixData (List.replicate N c) sigma).buckets ((List.replicate N c).length - 1)
      ⟨sa0, fun _ => 0, fun _ => 0⟩
      = ⟨upd sa0 0 (N - 1), upd (fun _ => 0) c 1, fun _ => 0⟩ := by
    rw [assign_ltype]
    simp only [hlen, hch, hbk]
  have hL := lPass_uniform N c sigma h1 hc ⟨upd sa0 0 (N - 1), upd (fun _ => 0) c 1, fun _ => 0⟩
    (by simp [upd]) (by simp [upd]) rfl
  rw [induced_sort]
  simp only [hseed, hasn]
  set stL := lPass (List.replicate N c) (buildSuffixData (List.replicate N c) sigma)
    ⟨upd sa0 0 (N - 1), upd (fun _ => 0) c 1, fun _ => 0⟩ with hstL
  have hS := sPass_uniform N c sigma h1 hc ⟨stL.sa, stL.heads, fun _ => 0⟩
    (by intro j hj; exact hL.1 j hj) (by show stL.heads c = N; exact hL.2.1) rfl
  rw [hS]
  exact ⟨fun j hj => hL.1 j hj, fun x => rfl⟩

theorem reduceExtract_zero_tails (sd : SuffixData) (sa : Nat → Nat) (tails : Nat → Nat)
    (h : ∀ x, tails x = 0) : reduceExtract sd sa tails = (sa, 0) := by
  rw [reduceExtract]
  apply foldl_fixed
  intro b _
  simp only [h b, List.range_zero, List.foldl_nil]

theorem reduce_zero_tails (t : List Nat) (sd : SuffixData) (saLen : Nat) (sa : Nat → Nat)
    (tails : Nat → Nat) (h : ∀ x, tails x = 0) :
    reduce t sd saLen sa tails = some (ReducedText.Sorted 0, sa) := by
  rw [reduce, reduceExtract_zero_tails sd sa tails h]
  simp

theorem buildR_uniform (N c sigma : Nat) (h1 : 1 ≤ N) (hc : c < sigma)
    (fuel saLen : Nat) (sa0 : Nat → Nat) :
    ∃ sa, buildR (fuel + 1) (List.replicate N c) sigma saLen sa0 = some sa ∧
      ∀ j, j < N → sa j = N - 1 - j := by
  have hfirst := induced_sort_uniform N c sigma h1 hc sa0 SeedMode.iter (Or.inl rfl)
  have hred := reduce_zero_tails (List.replicate N c)
    (buildSuffixData (List.replicate N c) sigma) saLen
    (induced_sort (List.replicate N c) (buildSuffixData (List.replicate N c) sigma)
      sa0 SeedMode.iter).1
    (induced_sort (List.replicate N c) (buildSuffixData (List.replicate N c) sigma)
      sa0 SeedMode.iter).2 hfirst.2
  have hsecond := induced_sort_uniform N c sigma h1 hc
    (induced_sort (List.replicate N c) (buildSuffixData (List.replicate N c) sigma)
      sa0 SeedMode.iter).1 (SeedMode.sorted 0) (Or.inr rfl)
  set ISa := (induced_sort (List.replicate N c) (buildSuffixData (List.replicate N c) sigma)
    sa0 SeedMode.iter).1 with hISa
  set ISt := (induced_sort (List.replicate N c) (buildSuffixData (List.replicate N c) sigma)
    sa0 SeedMode.iter).2 with hISt
  refine ⟨(induced_sort (List.replicate N c) (buildSuffixData (List.replicate N c) sigma)
    ISa (SeedMode.sorted 0)).1, ?_, hsecond.1⟩
  rw [buildR]
  rw [if_neg (by rw [guardSum_replicate N c sigma hc]; simp)]
  rw [← hISa, ← hISt, hred]

theorem saIsBuild_replicate (N c : Nat) (h1 : 1 ≤ N) (h2 : N < 2 ^ 32 - 2) (hc : c < 256) :
    saIsBuild (List.replicate N c) = some ((List.range N).map (fun i => N - 1 - i)) := by
  have hcheck : saIsChecksPass (List.replicate N c) = true := by
    rw [saIsChecksPass]
    simp only [List.length_replicate, Bool.and_eq_true, decide_eq_true_eq,
      Bool.not_eq_true', decide_eq_false_iff_not]
    omega
  have hlen : (List.replicate N c).length = N := by simp
  rw [saIsBuild, if_pos hcheck, hlen]
  obtain ⟨sa, hsa, hprop⟩ := buildR_uniform N c 256 h1 hc N N (fun _ => 0)
  rw [hsa]
  have hmapeq : (List.range N).map sa = (List.range N).map (fun i => N - 1 - i) := by
    apply List.map_congr_left
    intro i hi
    exact hprop i (List.mem_range.1 hi)
  rw [Option.map_some', hmapeq]

/-- Claim C3 (counterexample): the spec's table requires
build("aaaaaaab") = [6,5,4,3,2,1,0,7], but the builder returns
[0,1,2,3,4,5,6,7], which is the true lexicographic suffix order
("aaaaaaab" < "aaaaaab" < ... < "ab" < "b"). -/
theorem c3_counterexample :
    saIsBuild [97, 97, 97, 97, 97, 97, 97, 98] = some [0, 1, 2, 3, 4, 5, 6, 7] ∧
      (some [0, 1, 2, 3, 4, 5, 6, 7] : Option (List Nat)) ≠ some [6, 5, 4, 3, 2, 1, 0, 7] := by
  constructor
  · decide
  · decide

/-- Claim C3 (amended): the concrete scenarios with the two wrong table rows
replaced by the arrays the builder actually produces (which are the sorted
suffix orders), plus the boundary cases: every uniform text of n copies of
one byte yields [n-1, ..., 0], and every byte text of length 1 yields [0]. -/
theorem c3_scenarios :
    saIsBuild [97] = some [0] ∧
    saIsBuild [97, 97, 97, 97, 97, 97, 97, 98] = some [0, 1, 2, 3, 4, 5, 6, 7] ∧
    saIsBuild [98, 97, 97, 97, 97, 97, 97, 97] = some [7, 6, 5, 4, 3, 2, 1, 0] ∧
    saIsBuild [97, 98, 97, 97, 97, 97, 97, 97] = some [7, 6, 5, 4, 3, 2, 0, 1] ∧
    saIsBuild [97, 98, 97, 98, 97, 98, 97, 98] = some [6, 4, 2, 0, 7, 5, 3, 1] ∧
    saIsBuild [97, 98, 99, 98, 97, 98, 99, 98, 97] = some [8, 4, 0, 7, 3, 5, 1, 6, 2] ∧
    (∀ N c : Nat, 1 ≤ N → N < 2 ^ 32 - 2 → c < 256 →
      saIsBuild (List.replicate N c) = some ((List.range N).map (fun i => N - 1 - i))) ∧
    (∀ c : Nat, c < 256 → saIsBuild [c] = some [0]) := by
  refine ⟨by decide, by decide, by decide, by decide, by decide, by decide, ?_, ?_⟩
  · intro N c hN h2 hc
    exact saIsBuild_replicate N c hN h2 hc
  · intro c hc
    have h := saIsBuild_replicate 1 c (by omega) (by norm_num) hc
    simpa using h

/-- Witness for C3's universal parts at the uniform text "aaa". -/
theorem c3_witness :
    1 ≤ 3 ∧ 3 < 2 ^ 32 - 2 ∧ 97 < 256 ∧
      saIsBuild (List.replicate 3 97) = some ((List.range 3).map (fun i => 3 - 1 - i)) :=
  ⟨by decide, by norm_num, by decide,
    c3_scenarios.2.2.2.2.2.2.1 3 97 (by decide) (by norm_num) (by decide)⟩

/-! ### Claim C7 : lms_strings_equal against the spec's definition -/

theorem headD_filter_least (P : Nat → Bool) :
    ∀ (len s r d : Nat), s ≤ r → r < s + len → P r = true →
      (∀ k, s ≤ k → k < r → P k = false) →
      (((List.range' s len).filter P).headD d) = r := by
  intro len
  induction len with
  | zero => intro s r d h1 h2; omega
  | succ len ih =>
    intro s r d h1 h2 h3 h4
    rw [List.range'_succ, List.filter_cons]
    by_cases hPs : P s = true
    · have hsr : s = r := by
        by_contra hne
        have hf := h4 s le_rfl (by omega)
        rw [hPs] at hf
        simp at hf
      subst hsr
      simp [hPs]
    · have hsr : s ≠ r := fun he => hPs (he ▸ h3)
      simp only [hPs, if_neg, Bool.false_eq_true, not_false_eq_true, if_false]
      exact ih (s + 1) r d (by omega) (by omega) h3 (fun k hk1 hk2 => h4 k (by omega) hk2)

theorem headD_filter_none (P : Nat → Bool) :
    ∀ (len s d : Nat), (∀ k, s ≤ k → k < s + len → P k = false) →
      (((List.range' s len).filter P).headD d) = d := by
  intro len s d h
  have hnil : (List.range' s len).filter P = [] := by
    apply List.filter_eq_nil_iff.2
    intro k hk
    have := List.mem_range'_1.1 hk
    simp [h k this.1 this.2]
  rw [hnil]
  rfl

theorem nextLmsPos_eq_lmsNext (t : List Nat) (h1 : 1 ≤ t.length) (pos : Nat)
    (hpos : pos < t.length) :
    nextLmsPos t.length (lsArr t) pos = lmsNext (lsArr t) pos := by
  obtain ⟨hlt, hle, hmid, hlms⟩ := lmsNext_spec t h1 pos hpos
  rw [nextLmsPos]
  by_cases hr : lmsNext (lsArr t) pos < t.length
  · exact headD_filter_least _ (t.length - (pos + 1)) (pos + 1) (lmsNext (lsArr t) pos)
      t.length (by omega) (by omega) (hlms hr)
      (fun k hk1 hk2 => hmid k (by omega) hk2)
  · have hrn : lmsNext (lsArr t) pos = t.length := by omega
    rw [headD_filter_none _ (t.length - (pos + 1)) (pos + 1) t.length
      (fun k hk1 hk2 => hmid k (by omega) (by omega)), hrn]

theorem lsTypes_step : ∀ (t : List Nat) (x : Nat), x + 1 < t.length →
    (lsTypes t).getD x NAType
      = (if t.getD x 0 < t.getD (x + 1) 0 then SType
         else if t.getD (x + 1) 0 < t.getD x 0 then LType
         else (lsTypes t).getD (x + 1) NAType) := by
  intro t
  induction t with
  | nil => intro x h; simp at h
  | cons c rest ih =>
    intro x h
    cases rest with
    | nil =>
      simp only [List.length_cons, List.length_nil] at h
      omega
    | cons c2 rest2 =>
      cases x with
      | zero =>
        simp only [lsTypes, List.getD_cons_zero, List.getD_cons_succ]
        by_cases h1 : c < c2
        · simp [h1]
        · by_cases h2 : c2 < c
          · simp [h1, h2]
          · simp only [if_neg h1, if_neg h2]
            cases hls : lsTypes (c2 :: rest2) with
            | nil =>
              have hl := lsTypes_length (c2 :: rest2)
              rw [hls] at hl
              simp at hl
            | cons a l => simp
      | succ x =>
        simp only [lsTypes, List.getD_cons_succ]
        exact ih x (by simp only [List.length_cons] at h ⊢; omega)

theorem lsGet_step (t : List Nat) (x : Nat) (h : x + 1 < t.length) :
    lsGet (lsArr t) x
      = (if charAt t x < charAt t (x + 1) then SType
         else if charAt t (x + 1) < charAt t x then LType
         else lsGet (lsArr t) (x + 1)) := by
  rw [lsGet_lsArr_lt t x (by omega), lsGet_lsArr_lt t (x + 1) h, charAt, charAt]
  exact lsTypes_step t x h

theorem types_propagate (t : List Nat) (a b m : Nat)
    (ham : a + m < t.length) (hbm : b + m < t.length)
    (hch : ∀ i, i ≤ m → charAt t (a + i) = charAt t (b + i))
    (hend : lsGet (lsArr t) (a + m) = lsGet (lsArr t) (b + m)) :
    ∀ i, i ≤ m → lsGet (lsArr t) (a + i) = lsGet (lsArr t) (b + i) := by
  intro i hi
  generalize hd : m - i = d
  induction d generalizing i with
  | zero =>
    have : i = m := by omega
    rw [this]
    exact hend
  | succ d ih =>
    have him : i < m := by omega
    have hstep_a := lsGet_step t (a + i) (by omega)
    have hstep_b := lsGet_step t (b + i) (by omega)
    have hi1 : a + i + 1 = a + (i + 1) := by omega
    have hi2 : b + i + 1 = b + (i + 1) := by omega
    rw [hi1] at hstep_a
    rw [hi2] at hstep_b
    rw [hstep_a, hstep_b, hch i (by omega), hch (i + 1) (by omega),
      ih (i + 1) (by omega) (by omega)]

theorem lms_runs (t : List Nat) (h1 : 1 ≤ t.length) (pos : Nat) (hpos : pos < t.length)
    (hS : lsGet (lsArr t) pos = SType) :
    ∃ p q, 1 ≤ p ∧ 1 ≤ q ∧ pos + p + q ≤ t.length ∧
      (∀ i, i < p → lsGet (lsArr t) (pos + i) = SType) ∧
      lsGet (lsArr t) (pos + p) = LType ∧
      (∀ j, j < q → lsGet (lsArr t) (pos + p + j) = LType) ∧
      lsGet (lsArr t) (pos + p + q) = SType := by
  have hposn : pos < t.length - 1 := by
    by_contra hc
    have : pos = t.length - 1 := by omega
    rw [this, lsGet_lsArr_last t h1] at hS
    exact absurd hS (by simp)
  have hex1 : ∃ i, lsGet (lsArr t) (pos + i) ≠ SType := by
    refine ⟨(t.length - 1) - pos, ?_⟩
    have he : pos + ((t.length - 1) - pos) = t.length - 1 := by omega
    rw [he, lsGet_lsArr_last t h1]
    simp
  set p := Nat.find hex1 with hp
  have hpne : lsGet (lsArr t) (pos + p) ≠ SType := Nat.find_spec hex1
  have hpmin : ∀ i, i < p → lsGet (lsArr t) (pos + i) = SType := by
    intro i hi
    have := Nat.find_min hex1 hi
    simpa using this
  have hp1 : 1 ≤ p := by
    by_contra hc
    have hz : p = 0 := by omega
    rw [hz] at hpne
    simp at hpne
    exact hpne hS
  have hple : p ≤ (t.length - 1) - pos := by
    apply Nat.find_le
    have he : pos + ((t.length - 1) - pos) = t.length - 1 := by omega
    rw [he, lsGet_lsArr_last t h1]
    simp
  have hpL : lsGet (lsArr t) (pos + p) = LType := by
    rcases lsGet_lsArr_L_or_S t (pos + p) (by omega) with h | h
    · exact h
    · exact absurd h hpne
  have hex2 : ∃ j, lsGet (lsArr t) (pos + p + j) ≠ LType := by
    refine ⟨t.length - (pos + p), ?_⟩
    have he : pos + p + (t.length - (pos + p)) = t.length := by omega
    rw [he, lsGet_lsArr_len t]
    simp
  set q := Nat.find hex2 with hq
  have hqne : lsGet (lsArr t) (pos + p + q) ≠ LType := Nat.find_spec hex2
  have hqmin : ∀ j, j < q → lsGet (lsArr t) (pos + p + j) = LType := by
    intro j hj
    have := Nat.find_min hex2 hj
    simpa using this
  have hq1 : 1 ≤ q := by
    by_contra hc
    have hz : q = 0 := by omega
    rw [hz] at hqne
    simp at hqne
    exact hqne hpL
  have hqle : q ≤ t.length - (pos + p) := by
    apply Nat.find_le
    have he : pos + p + (t.length - (pos + p)) = t.length := by omega
    rw [he, lsGet_lsArr_len t]
    simp
  have hqS : lsGet (lsArr t) (pos + p + q) = SType := by
    by_cases hn : pos + p + q = t.length
    · rw [hn]
      exact lsGet_lsArr_len t
    · rcases lsGet_lsArr_L_or_S t (pos + p + q) (by omega) with h | h
      · exact absurd h hqne
      · exact h
  exact ⟨p, q, hp1, hq1, by omega, hpmin, hpL, hqmin, hqS⟩

theorem lmsNext_from_runs (t : List Nat) (pos p q : Nat)
    (hposn : pos + p + q ≤ t.length) (hq1 : 1 ≤ q)
    (hrunS : ∀ i, i < p → lsGet (lsArr t) (pos + i) = SType)
    (hpne : lsGet (lsArr t) (pos + p) ≠ SType)
    (hrunL : ∀ j, j < q → lsGet (lsArr t) (pos + p + j) = LType)
    (hqne : lsGet (lsArr t) (pos + p + q) ≠ LType) :
    lmsNext (lsArr t) pos = pos + p + q := by
  have hlen : (lsArr t).length = t.length + 1 := lsArr_length t
  rw [lmsNext]
  rw [scanS_eq (lsArr t) (lsArr t).length pos (pos + p) (by omega) (by omega)
    (by
      intro k hk1 hk2
      have hke : k = pos + (k - pos) := by omega
      rw [hke]
      exact hrunS (k - pos) (by omega)) hpne]
  exact scanL_eq (lsArr t) (lsArr t).length (pos + p + 1) (pos + p + q) (by omega) (by omega)
    (by
      intro k hk1 hk2
      have hke : k = pos + p + (k - (pos + p)) := by omega
      rw [hke]
      exact hrunL (k - (pos + p)) (by omega)) hqne

theorem loopFold_panic (f : Nat → Nat → Option Bool) :
    loopFold f LoopRes.panic = none := rfl

theorem loopFold_retFalse (f : Nat → Nat → Option Bool) :
    loopFold f LoopRes.retFalse = some false := rfl

theorem loopFold_brk (f : Nat → Nat → Option Bool) (x y : Nat) :
    loopFold f (LoopRes.brk x y) = f x y := rfl

theorem lmsEqFirstLoop_brk (t : List Nat) :
    ∀ (fuel p a b a1 b1 : Nat),
      (∀ i, i < p → lsGet (lsArr t) (a + i) = SType) →
      lsGet (lsArr t) (a + p) = LType →
      lmsEqFirstLoop t (lsArr t) fuel a b = LoopRes.brk a1 b1 →
      a1 = a + p ∧ b1 = b + p ∧ ∀ i, i ≤ p → charAt t (a + i) = charAt t (b + i) := by
  intro fuel
  induction fuel with
  | zero =>
    intro p a b a1 b1 _ _ h
    simp [lmsEqFirstLoop] at h
  | succ fuel ih =>
    intro p a b a1 b1 hrun hL h
    rw [lmsEqFirstLoop] at h
    by_cases hbnd : a < t.length ∧ b < t.length
    swap
    · rw [if_neg hbnd] at h
      exact absurd h (by simp)
    · rw [if_pos hbnd] at h
      by_cases hc0 : charAt t a = charAt t b
      swap
      · rw [if_pos (by simp [hc0])] at h
        exact absurd h (by simp)
      · rw [if_neg (by simp [hc0])] at h
        rw [if_pos (by rw [lsArr_length]; omega)] at h
        cases p with
        | zero =>
          rw [if_pos (by simpa using hL)] at h
          injection h with e1 e2
          refine ⟨by omega, by omega, ?_⟩
          intro i hi
          have hi0 : i = 0 := by omega
          simpa [hi0] using hc0
        | succ p2 =>
          have hSa : lsGet (lsArr t) a = SType := by
            have := hrun 0 (by omega)
            simpa using this
          rw [if_neg (by simp [hSa])] at h
          obtain ⟨e1, e2, e3⟩ := ih p2 (a + 1) (b + 1) a1 b1
            (by
              intro i hi
              have := hrun (i + 1) (by omega)
              have he : a + (i + 1) = a + 1 + i := by omega
              rwa [he] at this)
            (by
              have he : a + (p2 + 1) = a + 1 + p2 := by omega
              rwa [he] at hL) h
          refine ⟨by omega, by omega, ?_⟩
          intro i hi
          cases i with
          | zero => simpa using hc0
          | succ i2 =>
            have := e3 i2 (by omega)
            have ha2 : a + 1 + i2 = a + (i2 + 1) := by omega
            have hb2 : b + 1 + i2 = b + (i2 + 1) := by omega
            rwa [ha2, hb2] at this

theorem lmsEqFirstLoop_complete (t : List Nat) :
    ∀ (fuel p a b : Nat),
      (∀ i, i < p → lsGet (lsArr t) (a + i) = SType) →
      lsGet (lsArr t) (a + p) = LType → p < fuel →
      a + p < t.length → b + p < t.length →
      (∀ i, i ≤ p → charAt t (a + i) = charAt t (b + i)) →
      lmsEqFirstLoop t (lsArr t) fuel a b = LoopRes.brk (a + p) (b + p) := by
  intro fuel
  induction fuel with
  | zero => intro p a b _ _ h _ _ _; omega
  | succ fuel ih =>
    intro p a b hrun hL hp han hbn hch
    rw [lmsEqFirstLoop]
    rw [if_pos ⟨by omega, by omega⟩]
    have hc0 : charAt t a = charAt t b := by simpa using hch 0 (by omega)
    rw [if_neg (by simp [hc0])]
    rw [if_pos (by rw [lsArr_length]; omega)]
    cases p with
    | zero =>
      rw [if_pos (by simpa using hL)]
      simp
    | succ p2 =>
      have hSa : lsGet (lsArr t) a = SType := by
        have := hrun 0 (by omega)
        simpa using this
      rw [if_neg (by simp [hSa])]
      have hrec := ih p2 (a + 1) (b + 1)
        (by
          intro i hi
          have := hrun (i + 1) (by omega)
          have he : a + (i + 1) = a + 1 + i := by omega
          rwa [he] at this)
        (by
          have he : a + (p2 + 1) = a + 1 + p2 := by omega
          rwa [he] at hL)
        (by omega) (by omega) (by omega)
        (by
          intro i hi
          have := hch (i + 1) (by omega)
          have ha2 : a + (i + 1) = a + 1 + i := by omega
          have hb2 : b + (i + 1) = b + 1 + i := by omega
          rwa [ha2, hb2] at this)
      rw [hrec]
      have e1 : a + 1 + p2 = a + (p2 + 1) := by omega
      have e2 : b + 1 + p2 = b + (p2 + 1) := by omega
      rw [e1, e2]

theorem lmsEqSecondLoop_brk (t : List Nat) :
    ∀ (fuel q a b a2 b2 : Nat),
      (∀ j, j < q → lsGet (lsArr t) (a + j) = LType) →
      lsGet (lsArr t) (a + q) = SType → 1 ≤ q →
      lmsEqSecondLoop t (lsArr t) fuel a b = LoopRes.brk a2 b2 →
      a2 = a + q ∧ b2 = b + q ∧
        ∀ j, 1 ≤ j → j < q → charAt t (a + j) = charAt t (b + j) := by
  intro fuel
  induction fuel with
  | zero =>
    intro q a b a2 b2 _ _ _ h
    simp [lmsEqSecondLoop] at h
  | succ fuel ih =>
    intro q a b a2 b2 hrun hS hq1 h
    rw [lmsEqSecondLoop] at h
    by_cases hbls : a + 1 < (lsArr t).length
    swap
    · rw [if_neg hbls] at h
      exact absurd h (by simp)
    · rw [if_pos hbls] at h
      by_cases hq : q = 1
      · rw [hq] at hS
        rw [if_pos (by simpa using hS)] at h
        injection h with e1 e2
        refine ⟨by omega, by omega, ?_⟩
        intro j hj1 hj2
        omega
      · have hq2 : 2 ≤ q := by omega
        have hL1 : lsGet (lsArr t) (a + 1) = LType := hrun 1 (by omega)
        rw [if_neg (by simp [hL1])] at h
        by_cases hbnd : a + 1 < t.length ∧ b + 1 < t.length
        swap
        · rw [if_neg hbnd] at h
          exact absurd h (by simp)
        · rw [if_pos hbnd] at h
          by_cases hc1 : charAt t (a + 1) = charAt t (b + 1)
          swap
          · rw [if_pos (by simp [hc1])] at h
            exact absurd h (by simp)
          · rw [if_neg (by simp [hc1])] at h
            obtain ⟨e1, e2, e3⟩ := ih (q - 1) (a + 1) (b + 1) a2 b2
              (by
                intro j hj
                have := hrun (j + 1) (by omega)
                have he : a + (j + 1) = a + 1 + j := by omega
                rwa [he] at this)
              (by
                have he : a + q = a + 1 + (q - 1) := by omega
                rwa [he] at hS)
              (by omega) h
            refine ⟨by omega, by omega, ?_⟩
            intro j hj1 hj2
            cases j with
            | zero => omega
            | succ j2 =>
              by_cases hj0 : j2 = 0
              · rw [hj0]
                exact hc1
              · have := e3 j2 (by omega) (by omega)
                have ha2 : a + 1 + j2 = a + (j2 + 1) := by omega
                have hb2 : b + 1 + j2 = b + (j2 + 1) := by omega
                rwa [ha2, hb2] at this

theorem lmsEqSecondLoop_complete (t : List Nat) :
    ∀ (fuel q a b : Nat),
      (∀ j, j < q → lsGet (lsArr t) (a + j) = LType) →
      lsGet (lsArr t) (a + q) = SType → 1 ≤ q → q ≤ fuel →
      a + q ≤ t.length → b + q ≤ t.length →
      (∀ j, 1 ≤ j → j < q → charAt t (a + j) = charAt t (b + j)) →
      lmsEqSecondLoop t (lsArr t) fuel a b = LoopRes.brk (a + q) (b + q) := by
  intro fuel
  induction fuel with
  | zero => intro q a b _ _ h1 h2 _ _ _; omega
  | succ fuel ih =>
    intro q a b hrun hS hq1 hqf han hbn hch
    rw [lmsEqSecondLoop]
    rw [if_pos (by rw [lsArr_length]; omega)]
    by_cases hq : q = 1
    · rw [hq] at hS
      rw [if_pos (by simpa using hS)]
      rw [hq]
    · have hq2 : 2 ≤ q := by omega
      have hL1 : lsGet (lsArr t) (a + 1) = LType := hrun 1 (by omega)
      rw [if_neg (by simp [hL1])]
      rw [if_pos ⟨by omega, by omega⟩]
      rw [if_neg (by simp [hch 1 (by omega) (by omega)])]
      have hrec := ih (q - 1) (a + 1) (b + 1)
        (by
          intro j hj
          have := hrun (j + 1) (by omega)
          have he : a + (j + 1) = a + 1 + j := by omega
          rwa [he] at this)
        (by
          have he : a + q = a + 1 + (q - 1) := by omega
          rwa [he] at hS)
        (by omega) (by omega) (by omega) (by omega)
        (by
          intro j hj1 hj2
          have := hch (j + 1) (by omega) (by omega)
          have ha2 : a + (j + 1) = a + 1 + j := by omega
          have hb2 : b + (j + 1) = b + 1 + j := by omega
          rwa [ha2, hb2] at this)
      rw [hrec]
      have e1 : a + 1 + (q - 1) = a + q := by omega
      have e2 : b + 1 + (q - 1) = b + q := by omega
      rw [e1, e2]

theorem spec_elim (t : List Nat) (h1 : 1 ≤ t.length) (a b : Nat) (hab : a ≠ b)
    (han : a < t.length) (hbn : b < t.length)
    (hspec : lmsSubstringsEqualSpec t (lsArr t) a b = true) :
    nextLmsPos t.length (lsArr t) b - b = nextLmsPos t.length (lsArr t) a - a ∧
      a + (nextLmsPos t.length (lsArr t) a - a) < t.length ∧
      b + (nextLmsPos t.length (lsArr t) a - a) < t.length ∧
      (∀ i, i ≤ nextLmsPos t.length (lsArr t) a - a →
        charAt t (a + i) = charAt t (b + i)) ∧
      (∀ i, i ≤ nextLmsPos t.length (lsArr t) a - a →
        lsGet (lsArr t) (a + i) = lsGet (lsArr t) (b + i)) := by
  obtain ⟨hlta, hlea, _, _⟩ := lmsNext_spec t h1 a han
  obtain ⟨hltb, hleb, _, _⟩ := lmsNext_spec t h1 b hbn
  rw [← nextLmsPos_eq_lmsNext t h1 a han] at hlta hlea
  rw [← nextLmsPos_eq_lmsNext t h1 b hbn] at hltb hleb
  simp only [lmsSubstringsEqualSpec, Bool.and_eq_true, decide_eq_true_eq,
    List.all_eq_true, List.mem_range] at hspec
  obtain ⟨hlen, hall⟩ := hspec
  have hallm : ∀ i, i ≤ nextLmsPos t.length (lsArr t) a - a →
      charOpt t (a + i) = charOpt t (b + i) ∧
      lsGet (lsArr t) (a + i) = lsGet (lsArr t) (b + i) := by
    intro i hi
    have := hall i (by omega)
    exact ⟨this.1, this.2⟩
  set m := nextLmsPos t.length (lsArr t) a - a with hm
  have hEa : a + m = nextLmsPos t.length (lsArr t) a := by omega
  have hEb : b + m = nextLmsPos t.length (lsArr t) b := by omega
  have hbounds : a + m < t.length ∧ b + m < t.length := by
    have hcm := (hallm m le_rfl).1
    rw [charOpt, charOpt] at hcm
    by_cases hA : a + m < t.length
    · by_cases hB : b + m < t.length
      · exact ⟨hA, hB⟩
      · rw [if_pos hA, if_neg hB] at hcm
        simp at hcm
    · rw [if_neg hA] at hcm
      by_cases hB : b + m < t.length
      · rw [if_pos hB] at hcm
        simp at hcm
      · exfalso
        have hAn : a + m = t.length := by omega
        have hBn : b + m = t.length := by omega
        omega
  refine ⟨by omega, hbounds.1, hbounds.2, ?_, fun i hi => (hallm i hi).2⟩
  intro i hi
  have hcm := (hallm i hi).1
  rw [charOpt, charOpt, if_pos (by omega), if_pos (by omega)] at hcm
  exact Option.some.inj hcm

/-- Claim C7 (counterexample): on the text "baabcaab" the positions 1 and 5
are distinct LMS positions of the text, yet lms_strings_equal(1, 5) does
not return at all: after three matching lock-step iterations the first
loop reads text[8] on the length-8 text, a Rust index panic (modelled as
none), instead of returning false for the unequal LMS substrings. -/
theorem c7_counterexample :
    (1 : Nat) ≠ 5 ∧
      isLms (lsArr [98, 97, 97, 98, 99, 97, 97, 98]) 1 = true ∧
      isLms (lsArr [98, 97, 97, 98, 99, 97, 97, 98]) 5 = true ∧
      1 < ([98, 97, 97, 98, 99, 97, 97, 98] : List Nat).length ∧
      5 < ([98, 97, 97, 98, 99, 97, 97, 98] : List Nat).length ∧
      lms_strings_equal [98, 97, 97, 98, 99, 97, 97, 98]
          (lsArr [98, 97, 97, 98, 99, 97, 97, 98]) 1 5 = none ∧
      lmsSubstringsEqualSpec [98, 97, 97, 98, 99, 97, 97, 98]
          (lsArr [98, 97, 97, 98, 99, 97, 97, 98]) 1 5 = false := by
  decide

/-- Claim C7 (amended): for every text with its computed L/S type array and
every pair of distinct LMS positions a and b of the text, lms_strings_equal
returns true exactly when the two LMS substrings are equal in the spec's
sense: identical length, identical characters and identical L/S type at
every offset, each substring running to the next LMS position inclusive,
where the next LMS position may be the implicit pseudo-terminal.  On
spec-equal pairs the call always returns true; on spec-unequal pairs it
either returns false or aborts with an index out of bounds (none) instead
of returning. -/
theorem c7_lms_strings_equal_iff_spec (t : List Nat) (a b : Nat) (hab : a ≠ b)
    (ha : isLms (lsArr t) a = true) (hb : isLms (lsArr t) b = true)
    (han : a < t.length) (hbn : b < t.length) :
    lms_strings_equal t (lsArr t) a b = some true ↔
      lmsSubstringsEqualSpec t (lsArr t) a b = true := by
  have h1 : 1 ≤ t.length := by omega
  simp only [isLms, Bool.and_eq_true, decide_eq_true_eq] at ha hb
  obtain ⟨⟨ha0, haS⟩, haP⟩ := ha
  obtain ⟨⟨hb0, hbS⟩, hbP⟩ := hb
  obtain ⟨p, q, hp1, hq1, hle, hrunS, hpL, hrunL, hqS⟩ := lms_runs t h1 a han haS
  have hEa : lmsNext (lsArr t) a = a + p + q :=
    lmsNext_from_runs t a p q hle hq1 hrunS (by rw [hpL]; simp) hrunL (by rw [hqS]; simp)
  have hNa : nextLmsPos t.length (lsArr t) a = a + p + q := by
    rw [nextLmsPos_eq_lmsNext t h1 a han, hEa]
  have hma : nextLmsPos t.length (lsArr t) a - a = p + q := by omega
  constructor
  · intro h
    rw [lms_strings_equal] at h
    cases hFL : lmsEqFirstLoop t (lsArr t) (t.length + 2) a b with
    | panic =>
      rw [hFL, loopFold_panic] at h
      exact absurd h (by simp)
    | retFalse =>
      rw [hFL, loopFold_retFalse] at h
      exact absurd h (by simp)
    | brk a1 b1 =>
      obtain ⟨ea1, eb1, hC1⟩ := lmsEqFirstLoop_brk t (t.length + 2) p a b a1 b1 hrunS hpL hFL
      subst ea1
      subst eb1
      rw [hFL, loopFold_brk, lmsEqTail1] at h
      by_cases hb1l : b + p < (lsArr t).length
      swap
      · rw [if_neg hb1l] at h
        exact absurd h (by simp)
      · rw [if_pos hb1l] at h
        by_cases hBL : lsGet (lsArr t) (b + p) = LType
        swap
        · rw [if_pos (by simp [hBL])] at h
          exact absurd h (by simp)
        · rw [if_neg (by simp [hBL])] at h
          cases hSL : lmsEqSecondLoop t (lsArr t) (t.length + 2) (a + p) (b + p) with
          | panic =>
            rw [hSL, loopFold_panic] at h
            exact absurd h (by simp)
          | retFalse =>
            rw [hSL, loopFold_retFalse] at h
            exact absurd h (by simp)
          | brk a2 b2 =>
            obtain ⟨ea2, eb2, hC2⟩ := lmsEqSecondLoop_brk t (t.length + 2) q (a + p) (b + p)
              a2 b2 hrunL hqS hq1 hSL
            subst ea2
            subst eb2
            rw [hSL, loopFold_brk, lmsEqTail2] at h
            by_cases hb2l : b + p + q < (lsArr t).length
            swap
            · rw [if_neg hb2l] at h
              exact absurd h (by simp)
            · rw [if_pos hb2l] at h
              by_cases hBS : lsGet (lsArr t) (b + p + q) = SType
              swap
              · rw [if_pos (by simp [hBS])] at h
                exact absurd h (by simp)
              · rw [if_neg (by simp [hBS])] at h
                by_cases hEnd : a + p + q = t.length ∨ b + p + q = t.length
                · rw [if_pos hEnd] at h
                  exact absurd h (by simp)
                · rw [if_neg hEnd] at h
                  by_cases hbnd : a + p + q < t.length ∧ b + p + q < t.length
                  swap
                  · rw [if_neg hbnd] at h
                    exact absurd h (by simp)
                  · rw [if_pos hbnd] at h
                    have hC3 : charAt t (a + p + q) = charAt t (b + p + q) := by
                      simpa using h
                    have hamn : a + p + q < t.length := hbnd.1
                    have hbmn : b + p + q < t.length := hbnd.2
                    have hballchars : ∀ i, i ≤ p + q →
                        charAt t (a + i) = charAt t (b + i) := by
                      intro i hi
                      by_cases hip : i ≤ p
                      · exact hC1 i hip
                      · by_cases hiq : i < p + q
                        · have hcc := hC2 (i - p) (by omega) (by omega)
                          have e1 : a + p + (i - p) = a + i := by omega
                          have e2 : b + p + (i - p) = b + i := by omega
                          rwa [e1, e2] at hcc
                        · have hieq : i = p + q := by omega
                          rw [hieq]
                          have e1 : a + (p + q) = a + p + q := by omega
                          have e2 : b + (p + q) = b + p + q := by omega
                          rw [e1, e2]
                          exact hC3
                    have hendty : lsGet (lsArr t) (a + (p + q))
                        = lsGet (lsArr t) (b + (p + q)) := by
                      have e1 : a + (p + q) = a + p + q := by omega
                      have e2 : b + (p + q) = b + p + q := by omega
                      rw [e1, e2, hqS, hBS]
                    have htypes := types_propagate t a b (p + q) (by omega) (by omega)
                      hballchars hendty
                    have hEb : lmsNext (lsArr t) b = b + p + q := by
                      apply lmsNext_from_runs t b p q (by omega) hq1
                      · intro i hi
                        have hT := htypes i (by omega)
                        rw [← hT]
                        exact hrunS i hi
                      · rw [hBL]
                        simp
                      · intro j hj
                        have hT := htypes (p + j) (by omega)
                        have e1 : a + (p + j) = a + p + j := by omega
                        have e2 : b + (p + j) = b + p + j := by omega
                        rw [e1, e2] at hT
                        rw [← hT]
                        exact hrunL j hj
                      · rw [hBS]
                        simp
                    have hNb : nextLmsPos t.length (lsArr t) b = b + p + q := by
                      rw [nextLmsPos_eq_lmsNext t h1 b hbn, hEb]
                    simp only [lmsSubstringsEqualSpec, hNa, hNb, Bool.and_eq_true,
                      decide_eq_true_eq, List.all_eq_true, List.mem_range]
                    refine ⟨by omega, ?_⟩
                    intro i hi
                    have hile : i ≤ p + q := by omega
                    refine ⟨?_, htypes i hile⟩
                    rw [charOpt, charOpt, if_pos (by omega), if_pos (by omega)]
                    rw [hballchars i hile]
  · intro hspec
    obtain ⟨hEq, hAm, hBm, hChars, hTypes⟩ := spec_elim t h1 a b hab han hbn hspec
    rw [hma] at hEq hAm hBm hChars hTypes
    rw [lms_strings_equal,
      lmsEqFirstLoop_complete t (t.length + 2) p a b hrunS hpL (by omega) (by omega)
        (by omega) (fun i hi => hChars i (by omega))]
    rw [loopFold_brk, lmsEqTail1]
    rw [if_pos (by rw [lsArr_length]; omega)]
    have hBLt : lsGet (lsArr t) (b + p) = LType := by
      have hT := hTypes p (by omega)
      rw [hpL] at hT
      exact hT.symm
    rw [if_neg (by simp [hBLt])]
    rw [lmsEqSecondLoop_complete t (t.length + 2) q (a + p) (b + p) hrunL hqS hq1
      (by omega) (by omega) (by omega)
      (by
        intro j hj1 hj2
        have hcc := hChars (p + j) (by omega)
        have e1 : a + (p + j) = a + p + j := by omega
        have e2 : b + (p + j) = b + p + j := by omega
        rwa [e1, e2] at hcc)]
    rw [loopFold_brk, lmsEqTail2]
    rw [if_pos (by rw [lsArr_length]; omega)]
    have hBSt : lsGet (lsArr t) (b + p + q) = SType := by
      have hT := hTypes (p + q) le_rfl
      have e1 : a + (p + q) = a + p + q := by omega
      have e2 : b + (p + q) = b + p + q := by omega
      rw [e1, e2, hqS] at hT
      exact hT.symm
    rw [if_neg (by simp [hBSt])]
    rw [if_neg (by
      push_neg
      constructor
      · omega
      · omega)]
    rw [if_pos ⟨by omega, by omega⟩]
    have hcm : charAt t (a + p + q) = charAt t (b + p + q) := by
      have hcc := hChars (p + q) le_rfl
      have e1 : a + (p + q) = a + p + q := by omega
      have e2 : b + (p + q) = b + p + q := by omega
      rwa [e1, e2] at hcc
    simp [hcm]

/-- Witness for C7 at the text "abababab", LMS positions 2 and 4 (whose LMS
substrings "aba" are equal): the call returns, and its result true matches
the spec-side equality. -/
theorem c7_witness :
    (2 : Nat) ≠ 4 ∧ isLms (lsArr [97, 98, 97, 98, 97, 98, 97, 98]) 2 = true ∧
      isLms (lsArr [97, 98, 97, 98, 97, 98, 97, 98]) 4 = true ∧
      2 < ([97, 98, 97, 98, 97, 98, 97, 98] : List Nat).length ∧
      4 < ([97, 98, 97, 98, 97, 98, 97, 98] : List Nat).length ∧
      (lms_strings_equal [97, 98, 97, 98, 97, 98, 97, 98]
          (lsArr [97, 98, 97, 98, 97, 98, 97, 98]) 2 4 = some true ↔
        lmsSubstringsEqualSpec [97, 98, 97, 98, 97, 98, 97, 98]
            (lsArr [97, 98, 97, 98, 97, 98, 97, 98]) 2 4 = true) :=
  ⟨by decide, by decide, by decide, by decide, by decide,
    c7_lms_strings_equal_iff_spec [97, 98, 97, 98, 97, 98, 97, 98] 2 4
      (by decide) (by decide) (by decide) (by decide) (by decide)⟩
